import Mathlib

set_option maxRecDepth 100000

/-!
# Verification of the calendar resolution and invariant-validation engine

Shallow embedding of `src/selectors/calendar.mjs` (training-plan calendar:
seasons, blocks, weeks, versioned workouts; civil-date arithmetic, active-season
and week lookup, workout-reference parsing, tier fallback, whole-dataset
invariant validation).

Modelling conventions:
* JavaScript exceptions (the local `assert` helper and implicit runtime errors)
  are modelled with `Except String`; `.error` is "the call throws".
* Machine numbers are modelled with `Int`/`Nat`.  The embedding idealises
  IEEE-754 doubles as exact integers (all quantities reachable from the claims
  are integers far below 2^53) and omits the ECMAScript ±8.64e15 ms time-value
  clamp, which no date in the claims approaches.
* `Number(string)` is modelled on the fragment reachable from the date code:
  unsigned decimal digit strings and the empty string (whose JS value is 0);
  every other component (signs, decimal points, exponents, whitespace, other
  characters) is mapped to `none`, i.e. NaN / non-integer.
* Time-zone handling: the code formats instants and civil noons with
  `Intl.DateTimeFormat` in a configured zone and asserts every season's
  declared `timezone` equals that zone.  For any zone whose offset lies within
  ±12 hours of UTC (true of the configured `America/Los_Angeles`), the weekday
  of the UTC-noon instant of a civil date equals the proleptic-Gregorian
  weekday of that date, which is what the embedding computes.  A query instant
  is represented directly by the civil date (and hence weekday) it has in the
  configured zone, which is the only way the code consumes it.
-/

/-! ## Civil-date core (day numbers are days since 1970-01-01 UTC) -/

/-- First day-of-era (0-based) of year-of-era `y` inside a 400-year Gregorian
era that starts on 1 March of a century-leap year. -/
def yearStartInEra (y : Nat) : Nat := 365 * y + y / 4 - y / 100

/-- First day-of-year (0-based, March-based year) of shifted month `mp`
(`mp = 0` is March, `mp = 11` is February). -/
def monthStartDoy (mp : Nat) : Nat := (153 * mp + 2) / 5

/-- Year-of-era of a day-of-era: the greatest year whose first day is not
after the given day (ECMAScript's `YearFromTime` characterisation, restricted
to one 400-year era). -/
def yoeOfDoe (doe : Nat) : Nat := Nat.findGreatest (fun y => yearStartInEra y ≤ doe) 399

/-- Shifted month of a day-of-year: the greatest month whose first day is not
after the given day (ECMAScript's `MonthFromTime` characterisation). -/
def mpOfDoy (doy : Nat) : Nat := Nat.findGreatest (fun m => monthStartDoy m ≤ doy) 11

/-- Civil `(year, month, day)` of an era number and a day-of-era. -/
def civilOfEraDoe (era : Int) (doe : Nat) : Int × Nat × Nat :=
  let yoe := yoeOfDoe doe
  let doy := doe - yearStartInEra yoe
  let mp := mpOfDoy doy
  let d := doy - monthStartDoy mp + 1
  let m := if mp < 10 then mp + 3 else mp - 9
  (era * 400 + (yoe : Int) + (if m ≤ 2 then 1 else 0), m, d)

/-- Civil (proleptic Gregorian) date `(year, month, day)` of a day number.
Embeds the field extraction of `Date.prototype.getUTCFullYear` /
`getUTCMonth` / `getUTCDate`. -/
def civilFromDays (z : Int) : Int × Nat × Nat :=
  civilOfEraDoe ((z + 719468) / 146097) ((z + 719468) % 146097).toNat

/-- Day number of a civil triple (month `m` is 1..12; the day `d` may be any
integer, matching ECMAScript `MakeDay`'s `Day(first of month) + date - 1`). -/
def daysFromCivil (y : Int) (m : Nat) (d : Int) : Int :=
  let y2 := if m ≤ 2 then y - 1 else y
  let era := y2 / 400
  let yoe := (y2 - era * 400).toNat
  let mp := if 3 ≤ m then m - 3 else m + 9
  let doe := yearStartInEra yoe + monthStartDoy mp
  era * 146097 + (doe : Int) + (d - 1) - 719468

theorem yoeOfDoe_le (doe : Nat) : yoeOfDoe doe ≤ 399 := by
  unfold yoeOfDoe
  exact Nat.findGreatest_le 399

theorem yearStart_yoeOfDoe_le (doe : Nat) : yearStartInEra (yoeOfDoe doe) ≤ doe := by
  unfold yoeOfDoe
  exact Nat.findGreatest_spec (P := fun y => yearStartInEra y ≤ doe) (m := 0)
    (Nat.zero_le _) (show yearStartInEra 0 ≤ doe by unfold yearStartInEra; omega)

theorem doy_of_doe_le (doe : Nat) (h : doe < 146097) :
    doe - yearStartInEra (yoeOfDoe doe) ≤ 365 := by
  have h1 := yearStart_yoeOfDoe_le doe
  have h2 := yoeOfDoe_le doe
  by_cases hy : yoeOfDoe doe = 399
  · rw [hy] at h1 ⊢
    unfold yearStartInEra at h1 ⊢
    omega
  · have hgr : ¬ (yearStartInEra (yoeOfDoe doe + 1) ≤ doe) := by
      have hlt : yoeOfDoe doe < 399 := Nat.lt_of_le_of_ne h2 hy
      have := Nat.findGreatest_is_greatest (P := fun y => yearStartInEra y ≤ doe)
        (n := 399) (k := yoeOfDoe doe + 1) (by unfold yoeOfDoe; omega) (by omega)
      simpa using this
    unfold yearStartInEra at h1 hgr ⊢
    omega

theorem mpOfDoy_le (doy : Nat) : mpOfDoy doy ≤ 11 := by
  unfold mpOfDoy
  exact Nat.findGreatest_le 11

theorem monthStart_mpOfDoy_le (doy : Nat) : monthStartDoy (mpOfDoy doy) ≤ doy := by
  unfold mpOfDoy
  exact Nat.findGreatest_spec (P := fun m => monthStartDoy m ≤ doy) (m := 0)
    (Nat.zero_le _) (show monthStartDoy 0 ≤ doy by unfold monthStartDoy; omega)

theorem dom_of_doy_le (doy : Nat) (h : doy ≤ 365) :
    doy - monthStartDoy (mpOfDoy doy) ≤ 30 := by
  have m1 := monthStart_mpOfDoy_le doy
  have m2 := mpOfDoy_le doy
  by_cases hm : mpOfDoy doy = 11
  · rw [hm] at m1 ⊢
    unfold monthStartDoy at m1 ⊢
    omega
  · have hgr : ¬ (monthStartDoy (mpOfDoy doy + 1) ≤ doy) := by
      have hlt : mpOfDoy doy < 11 := Nat.lt_of_le_of_ne m2 hm
      have := Nat.findGreatest_is_greatest (P := fun m => monthStartDoy m ≤ doy)
        (n := 11) (k := mpOfDoy doy + 1) (by unfold mpOfDoy; omega) (by omega)
      simpa using this
    unfold monthStartDoy at m1 hgr ⊢
    omega

theorem civilOfEraDoe_recompose (era : Int) (doe : Nat) (h : doe < 146097) :
    daysFromCivil (civilOfEraDoe era doe).1 (civilOfEraDoe era doe).2.1
        (civilOfEraDoe era doe).2.2
      = era * 146097 + (doe : Int) - 719468 := by
  have hy1 := yearStart_yoeOfDoe_le doe
  have hy2 := yoeOfDoe_le doe
  have hy3 := doy_of_doe_le doe h
  simp only [civilOfEraDoe]
  set yoe := yoeOfDoe doe with hyoe
  have hm1 := monthStart_mpOfDoy_le (doe - yearStartInEra yoe)
  have hm2 := mpOfDoy_le (doe - yearStartInEra yoe)
  have hm3 := dom_of_doy_le (doe - yearStartInEra yoe) hy3
  set mp := mpOfDoy (doe - yearStartInEra yoe) with hmp
  by_cases hsplit : mp < 10
  · simp only [if_pos hsplit]
    have c1 : ¬ (mp + 3 ≤ 2) := by omega
    simp only [if_neg c1, add_zero]
    unfold daysFromCivil
    have c2 : 3 ≤ mp + 3 := by omega
    simp only [if_neg c1, if_pos c2]
    have e1 : (era * 400 + (yoe : Int)) / 400 = era := by omega
    rw [e1]
    have e2 : (era * 400 + (yoe : Int) - era * 400).toNat = yoe := by omega
    rw [e2]
    have e3 : mp + 3 - 3 = mp := by omega
    rw [e3]
    omega
  · simp only [if_neg hsplit]
    have c1 : mp - 9 ≤ 2 := by omega
    simp only [if_pos c1]
    unfold daysFromCivil
    have c2 : ¬ (3 ≤ mp - 9) := by omega
    simp only [if_pos c1, if_neg c2]
    have e1 : (era * 400 + (yoe : Int) + 1 - 1) / 400 = era := by omega
    rw [e1]
    have e2 : (era * 400 + (yoe : Int) + 1 - 1 - era * 400).toNat = yoe := by omega
    rw [e2]
    have e3 : mp - 9 + 9 = mp := by omega
    rw [e3]
    omega

theorem civilFromDays_roundtrip (z : Int) :
    daysFromCivil (civilFromDays z).1 (civilFromDays z).2.1 (civilFromDays z).2.2 = z := by
  have h : ((z + 719468) % 146097).toNat < 146097 := by omega
  unfold civilFromDays
  rw [civilOfEraDoe_recompose ((z + 719468) / 146097) (((z + 719468) % 146097).toNat) h]
  omega

/-- The extracted month is in 1..12 and the day in 1..31. -/
theorem civilFromDays_bounds (z : Int) :
    1 ≤ (civilFromDays z).2.1 ∧ (civilFromDays z).2.1 ≤ 12 ∧
      1 ≤ (civilFromDays z).2.2 ∧ (civilFromDays z).2.2 ≤ 31 := by
  have h : ((z + 719468) % 146097).toNat < 146097 := by omega
  unfold civilFromDays
  set doe := ((z + 719468) % 146097).toNat with hdoe
  have hy3 := doy_of_doe_le doe h
  simp only [civilOfEraDoe]
  set yoe := yoeOfDoe doe with hyoe
  have hm1 := monthStart_mpOfDoy_le (doe - yearStartInEra yoe)
  have hm2 := mpOfDoy_le (doe - yearStartInEra yoe)
  have hm3 := dom_of_doy_le (doe - yearStartInEra yoe) hy3
  set mp := mpOfDoy (doe - yearStartInEra yoe) with hmp
  by_cases hsplit : mp < 10
  · simp only [if_pos hsplit]
    omega
  · simp only [if_neg hsplit]
    omega

/-! ## Strings, JS `Number`, formatting and parsing of civil dates -/

/-- `String.prototype.split` with a single-character separator. -/
def splitOnChar (sep : Char) : List Char → List (List Char)
  | [] => [[]]
  | c :: cs =>
      if c = sep then [] :: splitOnChar sep cs
      else
        match splitOnChar sep cs with
        | h :: t => (c :: h) :: t
        | [] => [[c]]

def isDigitChar (c : Char) : Bool := c.isDigit

def digitChar (k : Nat) : Char := Char.ofNat (48 + k)

def charVal (c : Char) : Nat := c.toNat - 48

/-- Big-endian decimal digits of `n` (structural recursion on a fuel bound so
that the kernel can evaluate it; `natReprAux_eq` links it to `Nat.digits`). -/
def natReprAux : Nat → Nat → List Char
  | 0, _ => []
  | fuel + 1, n =>
      if n = 0 then [] else natReprAux fuel (n / 10) ++ [digitChar (n % 10)]

/-- Decimal rendering of a natural number (JS number-to-string for integers). -/
def natRepr (n : Nat) : List Char :=
  if n = 0 then ['0'] else natReprAux n n

theorem natReprAux_eq (fuel : Nat) : ∀ n : Nat, n ≤ fuel →
    natReprAux fuel n = ((Nat.digits 10 n).reverse).map digitChar := by
  induction fuel with
  | zero =>
      intro n h
      have hz : n = 0 := by omega
      subst hz
      simp [natReprAux]
  | succ f ih =>
      intro n h
      by_cases hn : n = 0
      · subst hn
        simp [natReprAux]
      · rw [natReprAux, if_neg hn]
        rw [ih (n / 10) (by omega)]
        rw [Nat.digits_def' (by norm_num : 1 < 10) (Nat.pos_of_ne_zero hn)]
        simp

theorem natRepr_eq_digits (n : Nat) :
    natRepr n = if n = 0 then ['0'] else ((Nat.digits 10 n).reverse).map digitChar := by
  by_cases hn : n = 0
  · simp [natRepr, hn]
  · rw [natRepr, if_neg hn, if_neg hn, natReprAux_eq n n (le_refl n)]

/-- Decimal rendering of an integer. -/
def intRepr (i : Int) : List Char :=
  if i < 0 then '-' :: natRepr i.natAbs else natRepr i.toNat

/-- Value of a decimal digit string. -/
def decValue (cs : List Char) : Nat := Nat.ofDigits 10 ((cs.map charVal).reverse)

/-- JS `Number(component)` restricted to the fragment reachable from the
`"-"`-split components of a date string: `Number("") = 0`, unsigned digit
strings have their decimal value, everything else is NaN (`none`). -/
def jsNumberInt (cs : List Char) : Option Int :=
  if cs.isEmpty then some 0
  else if cs.all isDigitChar then some ((decValue cs : Nat) : Int) else none

/-- `String.prototype.padStart(k, "0")`. -/
def padZeros (k : Nat) (cs : List Char) : List Char :=
  List.replicate (k - cs.length) '0' ++ cs

/-- `formatCivilDate({year, month, day})`: canonical `YYYY-MM-DD` rendering. -/
def formatCivilDate (y : Int) (m d : Nat) : String :=
  ⟨padZeros 4 (intRepr y) ++ '-' :: (padZeros 2 (natRepr m) ++ '-' :: padZeros 2 (natRepr d))⟩

instance {e a : Type} [DecidableEq e] [DecidableEq a] : DecidableEq (Except e a) := fun x y =>
  match x, y with
  | .ok u, .ok v =>
      if h : u = v then .isTrue (congrArg Except.ok h)
      else .isFalse (fun hc => h (Except.ok.inj hc))
  | .error u, .error v =>
      if h : u = v then .isTrue (congrArg Except.error h)
      else .isFalse (fun hc => h (Except.error.inj hc))
  | .ok _, .error _ => .isFalse (fun hc => Except.noConfusion hc)
  | .error _, .ok _ => .isFalse (fun hc => Except.noConfusion hc)

def msPerDay : Int := 86400000

/-- ECMAScript `Date.UTC(y, m-1, d)` in epoch milliseconds: the two-digit-year
bump to 1900 + y, month normalisation by floor division, and
`MakeDay`-style day offsetting. -/
def dateUTC (y m d : Int) : Int :=
  let yb := if 0 ≤ y ∧ y ≤ 99 then y + 1900 else y
  let mm := m - 1
  let q := mm / 12
  let ym := yb + q
  let mn := (mm - 12 * q).toNat + 1
  msPerDay * (daysFromCivil ym mn d)

/-- The `i`-th component of `civilDate.split("-").map(Number)` (`none` is NaN,
also covering a missing component, i.e. `Number(undefined)`). -/
def civilParts (s : String) (i : Nat) : Option Int :=
  ((splitOnChar '-' s.data).get? i).bind jsNumberInt

/-- `civilDateToEpochMs(civilDate)`: splits on `"-"`, converts the first three
components with `Number`, asserts they are integers, and applies `Date.UTC`. -/
def civilDateToEpochMs (s : String) : Except String Int :=
  match civilParts s 0, civilParts s 1, civilParts s 2 with
  | some y, some m, some d => .ok (dateUTC y m d)
  | _, _, _ => .error ("Invalid civil date: " ++ s)

/-- `addDaysToCivilDate(civilDate, days)`: epoch arithmetic followed by
`getUTCFullYear/getUTCMonth/getUTCDate` extraction and reformatting. -/
def addDaysToCivilDate (s : String) (days : Int) : Except String String :=
  (civilDateToEpochMs s).map (fun ms =>
    let t := ms + days * msPerDay
    let c := civilFromDays (t / msPerDay)
    formatCivilDate c.1 c.2.1 c.2.2)

/-- Short weekday label of a day number (1970-01-01 was a Thursday). -/
def weekdayName (z : Int) : String :=
  match ((z + 4) % 7).toNat with
  | 0 => "Sun"
  | 1 => "Mon"
  | 2 => "Tue"
  | 3 => "Wed"
  | 4 => "Thu"
  | 5 => "Fri"
  | _ => "Sat"

/-- `weekdayForCivilDate(civilDate, timeZone)`: civil noon of the parsed date
formatted as a weekday in the zone.  A NaN component produces an invalid
`Date`, which `Intl.DateTimeFormat.format` rejects (modelled as `.error`).
The `timeZone` argument is retained for shape; for every zone within ±12 h of
UTC the result is the Gregorian weekday of the civil date itself. -/
def weekdayForCivilDate (s : String) (timeZone : String) : Except String String :=
  match civilParts s 0, civilParts s 1, civilParts s 2 with
  | some y, some m, some d => .ok (weekdayName ((dateUTC y m d) / msPerDay))
  | _, _, _ => .error ("Invalid date.")

/-- A query instant, represented by the civil date it has in the configured
time zone (the only form in which the code consumes the instant). -/
structure QueryDate where
  year : Nat
  month : Nat
  day : Nat
deriving DecidableEq, Repr

/-- `toCivilDateString(date, timeZone)`: the zone-local civil date, formatted. -/
def toCivilDateString (q : QueryDate) : String :=
  formatCivilDate (q.year : Int) q.month q.day

/-- Day number of the query's civil date (used for its weekday). -/
def queryDayNumber (q : QueryDate) : Int :=
  daysFromCivil (q.year : Int) q.month (q.day : Int)

/-- `WEEKDAY_TO_KEY` lookup. -/
def weekdayToKey (w : String) : Option String :=
  if w = "Mon" then some "mon"
  else if w = "Tue" then some "tue"
  else if w = "Wed" then some "wed"
  else if w = "Thu" then some "thu"
  else if w = "Fri" then some "fri"
  else if w = "Sat" then some "sat"
  else if w = "Sun" then some "sun"
  else none

/-- `dayKeyForDate(date, timeZone)`: weekday key of the query date.  The
source's assert (`Unsupported weekday value`) can never fire because
`weekdayName` only produces the seven supported labels. -/
def dayKeyForDate (q : QueryDate) : String :=
  (weekdayToKey (weekdayName (queryDayNumber q))).getD ""

example : weekdayName 0 = "Thu" := by decide
example : daysFromCivil 2026 1 26 = 20479 := by decide
example : weekdayName 20479 = "Mon" := by decide
example : civilFromDays 20479 = (2026, 1, 26) := by decide
example : civilFromDays 0 = (1970, 1, 1) := by decide
example : dateUTC 2026 2 31 = dateUTC 2026 3 3 := by decide
example : civilDateToEpochMs ("2026-01-26") = .ok (20479 * 86400000) := by decide
example : addDaysToCivilDate ("2026-01-26") 6 = .ok ("2026-02-01") := by decide
example : weekdayForCivilDate ("2026-01-26") ("America/Los_Angeles") = .ok ("Mon") := by decide
example : dayKeyForDate ⟨2026, 1, 27⟩ = "tue" := by decide

/-! ## Data model

Typed records for the four collections.  Dynamic-shape asserts of the source
(`Array.isArray`, `typeof ... === "object"`, the seven-weekday-key shape check
`assertWeekWorkoutsShape`, `typeof ref === "string"`) are satisfied by
construction in this typed model, so they are omitted; every assert whose truth
depends on the data's *values* is embedded faithfully.  Tier-variant payloads
are opaque to the resolution logic and are modelled as strings. -/

def DEFAULT_TIME_ZONE : String := "America/Los_Angeles"

structure Season where
  seasonId : String
  timezone : String
  startDate : String
  endDate : String
  weekIds : List String
deriving DecidableEq, Repr

/-- `week.workouts`: exactly the seven weekday keys, each a workout-reference
string or the explicit rest marker `null` (`none`). -/
structure DayWorkouts where
  mon : Option String
  tue : Option String
  wed : Option String
  thu : Option String
  fri : Option String
  sat : Option String
  sun : Option String
deriving DecidableEq, Repr

structure Week where
  weekId : String
  seasonId : String
  blockId : String
  startDate : String
  workouts : DayWorkouts
deriving DecidableEq, Repr

structure Block where
  blockId : String
  name : String
  intent : String
  weekIds : List String
deriving DecidableEq, Repr

/-- `workout.tiers`: the three tier slots; a missing slot is `none`. -/
structure TierSet where
  MED : Option String
  LRG : Option String
  XL : Option String
deriving DecidableEq, Repr

structure Workout where
  workoutId : String
  version : Nat
  status : String
  tiers : TierSet
deriving DecidableEq, Repr

structure CalendarData where
  seasons : List Season
  blocks : List Block
  weeks : List Week
  workouts : List Workout
deriving DecidableEq, Repr

/-- JS object lookup `week.workouts[dayKey]`. -/
def weekWorkoutsGet (w : DayWorkouts) (k : String) : Option String :=
  if k = "mon" then w.mon
  else if k = "tue" then w.tue
  else if k = "wed" then w.wed
  else if k = "thu" then w.thu
  else if k = "fri" then w.fri
  else if k = "sat" then w.sat
  else if k = "sun" then w.sun
  else none

/-- JS object lookup `workout.tiers[key]`. -/
def tiersGet (t : TierSet) (k : String) : Option String :=
  if k = "MED" then t.MED
  else if k = "LRG" then t.LRG
  else if k = "XL" then t.XL
  else none

/-- `new Map(list.map(x => [key x, x])).get k`: later entries overwrite
earlier ones, so the lookup finds the last matching element. -/
def mapGetLast {a : Type} (key : a → String) (l : List a) (k : String) : Option a :=
  l.reverse.find? (fun x => key x == k)

/-! ## Workout-reference parsing, tier fallback, version lookup -/

def isRefIdChar (c : Char) : Bool := c.isLower || c.isDigit || c = '-'

/-- `parseWorkoutRef(value)`: the regex `^([a-z0-9-]+)@v([1-9][0-9]*)$`.
Since `@` is outside both character classes, a match decomposes the string at
its unique `@` into the id part and a `v` + digits (no leading zero) part.
`none` is the thrown `Invalid workout reference` error. -/
def parseWorkoutRef (value : String) : Option (String × Nat) :=
  match value.data.dropWhile (fun c => c ≠ '@') with
  | '@' :: 'v' :: ds =>
      if value.data.takeWhile (fun c => c ≠ '@') ≠ [] ∧
          (value.data.takeWhile (fun c => c ≠ '@')).all isRefIdChar = true ∧
          ds ≠ [] ∧ ds.all isDigitChar = true ∧ ds.head? ≠ some '0'
      then some (⟨value.data.takeWhile (fun c => c ≠ '@')⟩, decValue ds) else none
  | _ => none

/-- The fixed tier preference orders (`fallbackOrder[tier] || default`). -/
def fallbackOrderFor (tier : String) : List String :=
  if tier = "MED" then ["MED", "LRG", "XL"]
  else if tier = "LRG" then ["LRG", "MED", "XL"]
  else if tier = "XL" then ["XL", "LRG", "MED"]
  else ["MED", "LRG", "XL"]

/-- The candidate loop of `resolveTierVariant`. -/
def firstTierHit (w : Workout) : List String → Except String (String × String)
  | [] => .error ("Workout " ++ w.workoutId ++ " has no tier variants.")
  | k :: rest =>
      match tiersGet w.tiers k with
      | some v => .ok (v, k)
      | none => firstTierHit w rest

/-- `resolveTierVariant(workout, tier)`: first present tier in the preference
order, together with the source tier actually used. -/
def resolveTierVariant (w : Workout) (tier : String) : Except String (String × String) :=
  firstTierHit w (fallbackOrderFor tier)

/-- `resolveWorkoutByVersion(workouts, workoutId, version)`: first workout with
the exact id and version whose status is not `draft`. -/
def resolveWorkoutByVersion (workouts : List Workout) (workoutId : String)
    (version : Nat) : Option Workout :=
  workouts.find? (fun w =>
    w.workoutId == workoutId && w.version == version && w.status != "draft")

/-! ## Season and week resolution -/

/-- The `seasons.filter(...)` of `resolveActiveSeason`: the callback asserts
the season's declared timezone and parses both range endpoints for *every*
element of the list, in order, keeping those whose range contains the query. -/
def filterSeasonCandidates (dateMs : Int) (timeZone : String) :
    List Season → Except String (List Season)
  | [] => .ok []
  | season :: rest =>
      if season.timezone ≠ timeZone then
        .error ("Season " ++ season.seasonId ++ " must use timezone " ++ timeZone ++ ".")
      else do
        let startMs ← civilDateToEpochMs season.startDate
        let endMs ← civilDateToEpochMs season.endDate
        let tail ← filterSeasonCandidates dateMs timeZone rest
        if startMs ≤ dateMs ∧ dateMs ≤ endMs then pure (season :: tail) else pure tail

/-- The `candidates.reduce(...)` of `resolveActiveSeason`: keeps the candidate
with the latest start date, a later list element winning ties. -/
def reduceLatestSeason (latest : Season) : List Season → Except String Season
  | [] => pure latest
  | current :: rest => do
      let latestStart ← civilDateToEpochMs latest.startDate
      let currentStart ← civilDateToEpochMs current.startDate
      reduceLatestSeason (if currentStart ≥ latestStart then current else latest) rest

/-- `resolveActiveSeason(seasons, date, timeZone)`. -/
def resolveActiveSeason (seasons : List Season) (q : QueryDate)
    (timeZone : String) : Except String (Option Season) := do
  let dateMs ← civilDateToEpochMs (toCivilDateString q)
  let candidates ← filterSeasonCandidates dateMs timeZone seasons
  match candidates with
  | [] => pure none
  | c :: rest => do
      let best ← reduceLatestSeason c rest
      pure (some best)

/-- The `season.weekIds.map(...)` of `resolveWeekForDate`: every id must
resolve in the week lookup map. -/
def resolveOrderedWeeks (weeks : List Week) : List String → Except String (List Week)
  | [] => .ok []
  | weekId :: rest => do
      match mapGetLast Week.weekId weeks weekId with
      | none => throw ("Week " ++ weekId ++ " not found in weeks data.")
      | some w => do
          let tail ← resolveOrderedWeeks weeks rest
          pure (w :: tail)

/-- The indexed window-scan loop of `resolveWeekForDate`. -/
def findWeekLoop (dateMs : Int) (timeZone : String) :
    List Week → Nat → Except String (Option (Week × Nat))
  | [], _ => pure none
  | week :: rest, index => do
      let startMs ← civilDateToEpochMs week.startDate
      let endStr ← addDaysToCivilDate week.startDate 6
      let endMs ← civilDateToEpochMs endStr
      if startMs ≤ dateMs ∧ dateMs ≤ endMs then do
        let weekday ← weekdayForCivilDate week.startDate timeZone
        if weekday = "Mon" then pure (some (week, index))
        else throw ("Week " ++ week.weekId ++ " must start on Monday.")
      else findWeekLoop dateMs timeZone rest (index + 1)

/-- `resolveWeekForDate(season, weeks, date, timeZone)`; `season` may be the
falsy `null` (`none`), returning `null` immediately. -/
def resolveWeekForDate (seasonOpt : Option Season) (weeks : List Week)
    (q : QueryDate) (timeZone : String) : Except String (Option (Week × Nat)) := do
  match seasonOpt with
  | none => pure none
  | some season => do
      let dateMs ← civilDateToEpochMs (toCivilDateString q)
      let orderedWeeks ← resolveOrderedWeeks weeks season.weekIds
      findWeekLoop dateMs timeZone orderedWeeks 0

/-! ## Workout-of-day composition -/

structure ResolvedBlockSummary where
  blockId : String
  name : String
  intent : String
deriving DecidableEq, Repr

structure ResolvedWeekSummary where
  weekId : String
  index : Nat
  startDate : String
deriving DecidableEq, Repr

/-- The Resolved Day record (`workout`, per-tier variants, per-tier source
tiers, block summary, week summary). -/
structure ResolvedDay where
  workout : Workout
  tiersMED : String
  tiersLRG : String
  tiersXL : String
  sourceMED : String
  sourceLRG : String
  sourceXL : String
  block : ResolvedBlockSummary
  week : ResolvedWeekSummary
deriving DecidableEq, Repr

/-- `resolveWorkoutOfDay(data, date, options)`. -/
def resolveWorkoutOfDay (data : CalendarData) (q : QueryDate)
    (timeZone : String) : Except String (Option ResolvedDay) := do
  let seasonOpt ← resolveActiveSeason data.seasons q timeZone
  match seasonOpt with
  | none => pure none
  | some season => do
      let resolved ← resolveWeekForDate (some season) data.weeks q timeZone
      match resolved with
      | none => pure none
      | some (week, index) => do
          let dayKey := dayKeyForDate q
          match weekWorkoutsGet week.workouts dayKey with
          | none => pure none
          | some workoutRef =>
              match parseWorkoutRef workoutRef with
              | none => throw ("Invalid workout reference: " ++ workoutRef)
              | some (workoutId, version) =>
                  match resolveWorkoutByVersion data.workouts workoutId version with
                  | none =>
                      throw ("Workout " ++ workoutId ++ "@v" ++ (⟨natRepr version⟩ : String)
                        ++ " not found or is draft.")
                  | some workout =>
                      match data.blocks.find? (fun b => b.blockId == week.blockId) with
                      | none =>
                          throw ("Block " ++ week.blockId ++ " not found in blocks data.")
                      | some block => do
                          let med ← resolveTierVariant workout "MED"
                          let lrg ← resolveTierVariant workout "LRG"
                          let xl ← resolveTierVariant workout "XL"
                          pure (some
                            { workout := workout
                              tiersMED := med.1
                              tiersLRG := lrg.1
                              tiersXL := xl.1
                              sourceMED := med.2
                              sourceLRG := lrg.2
                              sourceXL := xl.2
                              block :=
                                { blockId := block.blockId
                                  name := block.name
                                  intent := block.intent }
                              week :=
                                { weekId := week.weekId
                                  index := index
                                  startDate := week.startDate } })

/-! ## Whole-dataset invariant validation (`assertCalendarData`) -/

/-- The inner `season.weekIds.map(...)` of the seasons pass: each referenced
week must exist and belong to the season; collects the week start dates. -/
def collectSeasonWeekStartDates (weeks : List Week) (seasonId : String) :
    List String → Except String (List String)
  | [] => .ok []
  | weekId :: rest => do
      match mapGetLast Week.weekId weeks weekId with
      | none => throw ("Week " ++ weekId ++ " not found in weeks data.")
      | some w =>
          if w.seasonId ≠ seasonId then
            .error ("Week " ++ weekId ++ " seasonId must match season " ++ seasonId ++ ".")
          else do
            let tail ← collectSeasonWeekStartDates weeks seasonId rest
            pure (w.startDate :: tail)

/-- Adjacent-pair chronology check: JS compares the date *strings* with `<`,
i.e. lexicographically. -/
def chronologicalCheck (msg : String) : List String → Except String Unit
  | [] => .ok ()
  | [_] => .ok ()
  | a :: b :: rest => do
      if a < b then chronologicalCheck msg (b :: rest) else throw msg

/-- The second per-week loop of the seasons pass: Monday start and containment
of the week's 7-day span in the season's range. -/
def seasonWeekContainment (weeks : List Week) (season : Season) (timeZone : String) :
    List String → Except String Unit
  | [] => .ok ()
  | weekId :: rest => do
      match mapGetLast Week.weekId weeks weekId with
      | none => throw ("Week " ++ weekId ++ " not found in weeks data.")
      | some w => do
          let weekday ← weekdayForCivilDate w.startDate timeZone
          if weekday ≠ "Mon" then
            .error ("Week " ++ w.weekId ++ " must start on Monday.")
          else do
            let startMs ← civilDateToEpochMs w.startDate
            let endStr ← addDaysToCivilDate w.startDate 6
            let endMs ← civilDateToEpochMs endStr
            let seasonStart ← civilDateToEpochMs season.startDate
            let seasonEnd ← civilDateToEpochMs season.endDate
            if seasonStart ≤ startMs ∧ seasonEnd ≥ endMs then
              seasonWeekContainment weeks season timeZone rest
            else
              throw ("Season " ++ season.seasonId ++ " must contain week " ++ w.weekId ++ ".")

/-- One iteration of the seasons pass of `assertCalendarData`. -/
def seasonCheck (weeks : List Week) (timeZone : String) (season : Season) :
    Except String Unit :=
  if season.timezone ≠ timeZone then
    .error ("Season " ++ season.seasonId ++ " must use timezone " ++ timeZone ++ ".")
  else if season.weekIds.length < 1 then
    .error ("Season " ++ season.seasonId ++ " must include at least one week.")
  else do
    let weekStartDates ← collectSeasonWeekStartDates weeks season.seasonId season.weekIds
    chronologicalCheck ("Season " ++ season.seasonId ++ " weekIds must be chronological.")
      weekStartDates
    seasonWeekContainment weeks season timeZone season.weekIds

/-- The `block.weekIds.map(...)` of the blocks pass. -/
def collectBlockWeeks (weeks : List Week) : List String → Except String (List Week)
  | [] => .ok []
  | weekId :: rest => do
      match mapGetLast Week.weekId weeks weekId with
      | none => throw ("Week " ++ weekId ++ " not found in weeks data.")
      | some w => do
          let tail ← collectBlockWeeks weeks rest
          pure (w :: tail)

/-- One iteration of the blocks pass of `assertCalendarData`.  The
`if (seasonId)` of the source is string truthiness: the season-membership
checks are skipped when the first block week's `seasonId` is the empty
string. -/
def blockCheck (seasons : List Season) (weeks : List Week) (block : Block) :
    Except String Unit :=
  if block.weekIds.length < 1 then
    .error ("Block " ++ block.blockId ++ " must include at least one week.")
  else do
  let blockWeeks ← collectBlockWeeks weeks block.weekIds
  chronologicalCheck ("Block " ++ block.blockId ++ " weekIds must be chronological.")
    (blockWeeks.map Week.startDate)
  let seasonId := (blockWeeks.head?.map Week.seasonId).getD ""
  match blockWeeks.find? (fun w => w.seasonId != seasonId) with
  | some _ => throw ("Block " ++ block.blockId ++ " cannot mix seasons.")
  | none => do
      if seasonId ≠ "" then
        match mapGetLast Season.seasonId seasons seasonId with
        | none =>
            throw ("Season " ++ seasonId ++ " not found for block " ++ block.blockId ++ ".")
        | some season =>
            match blockWeeks.find? (fun w => !(season.weekIds.contains w.weekId)) with
            | some _ =>
                throw ("Block " ++ block.blockId ++ " weekIds must be subset of season "
                  ++ seasonId ++ ".")
            | none => pure ()
      else
        pure ()

/-- The string key `${workoutId}@v${version}`. -/
def workoutKey (workoutId : String) (version : Nat) : String :=
  workoutId ++ "@v" ++ (⟨natRepr version⟩ : String)

/-- `workoutByKey.has(key)`: membership among the non-draft workouts. -/
def workoutKeyPresent (workouts : List Workout) (key : String) : Bool :=
  (workouts.filter (fun w => w.status != "draft")).any
    (fun w => workoutKey w.workoutId w.version == key)

/-- The per-day reference check of the weeks pass. -/
def weekDayRefsCheck (workouts : List Workout) (week : Week) :
    List String → Except String Unit
  | [] => .ok ()
  | day :: rest => do
      match weekWorkoutsGet week.workouts day with
      | none => weekDayRefsCheck workouts week rest
      | some ref =>
          match parseWorkoutRef ref with
          | none => throw ("Invalid workout reference: " ++ ref)
          | some (workoutId, version) =>
              if workoutKeyPresent workouts (workoutKey workoutId version) then
                weekDayRefsCheck workouts week rest
              else
                throw ("Workout " ++ workoutKey workoutId version
                  ++ " not found or is draft (referenced by week " ++ week.weekId ++ ").")

def DAY_KEYS : List String := ["mon", "tue", "wed", "thu", "fri", "sat", "sun"]

/-- One iteration of the weeks pass of `assertCalendarData` (the shape check
`assertWeekWorkoutsShape` holds by construction in the typed model). -/
def weekCheck (workouts : List Workout) (week : Week) : Except String Unit :=
  weekDayRefsCheck workouts week DAY_KEYS

/-- Sequential traversal of a validation pass over a list. -/
def forEachCheck {a : Type} (f : a → Except String Unit) : List a → Except String Unit
  | [] => .ok ()
  | x :: rest => do
      f x
      forEachCheck f rest

/-- `assertCalendarData(data, options)`: the whole-dataset invariant pass
(seasons chronology/containment, blocks chronology/subset, week reference
resolvability against non-draft workouts). -/
def assertCalendarData (data : CalendarData) (timeZone : String) : Except String Unit := do
  forEachCheck (seasonCheck data.weeks timeZone) data.seasons
  forEachCheck (blockCheck data.seasons data.weeks) data.blocks
  forEachCheck (weekCheck data.workouts) data.weeks

/-! ## Concrete fixtures (spec §8-style scenario, 2026 season) -/

def workoutA : Workout :=
  { workoutId := "workout-a", version := 1, status := "published",
    tiers := { MED := some "a-med", LRG := some "a-lrg", XL := some "a-xl" } }

/-- A workout exposing only the MED and LRG tiers. -/
def workoutB : Workout :=
  { workoutId := "workout-b", version := 1, status := "published",
    tiers := { MED := some "b-med", LRG := some "b-lrg", XL := none } }

/-- A draft version. -/
def workoutD : Workout :=
  { workoutId := "workout-d", version := 2, status := "draft",
    tiers := { MED := some "d-med", LRG := some "d-lrg", XL := some "d-xl" } }

def restWeekDays : DayWorkouts :=
  { mon := none, tue := none, wed := none, thu := none, fri := none,
    sat := none, sun := none }

def week1 : Week :=
  { weekId := "week-1", seasonId := "season-1", blockId := "block-x",
    startDate := "2026-01-26",
    workouts := { restWeekDays with tue := some "workout-a@v1" } }

def season1 : Season :=
  { seasonId := "season-1", timezone := "America/Los_Angeles",
    startDate := "2026-01-26", endDate := "2026-02-08",
    weekIds := ["week-1"] }

/-- Dataset whose only flaw is that `week-1.blockId = "block-x"` names no
block: `blocks` is empty. -/
def dataMissingBlock : CalendarData :=
  { seasons := [season1], blocks := [], weeks := [week1],
    workouts := [workoutA] }

/-- Tuesday of week 1. -/
def qTue : QueryDate := ⟨2026, 1, 27⟩

example : assertCalendarData dataMissingBlock DEFAULT_TIME_ZONE = .ok () := by decide
example : resolveWorkoutOfDay dataMissingBlock qTue DEFAULT_TIME_ZONE
    = .error ("Block block-x not found in blocks data.") := by decide

/-! ## Claim C1 -/

/-- C1: the claim "every dataset accepted by `assertCalendarData` makes
`resolveWorkoutOfDay` total (a ResolvedDay or null, never a throw)" fails on
the code: `assertCalendarData` accepts `dataMissingBlock`, a dataset in which
`week-1.blockId = "block-x"` resolves to no block (the validator never checks
`week.blockId`, although the repository's validation checklist rule S8
requires it), and `resolveWorkoutOfDay` then throws `Block ... not found` on
the in-season date 2026-01-27. -/
theorem C1_accepted_dataset_still_throws :
    assertCalendarData dataMissingBlock DEFAULT_TIME_ZONE = .ok () ∧
      resolveWorkoutOfDay dataMissingBlock qTue DEFAULT_TIME_ZONE
        = .error ("Block block-x not found in blocks data.") := by
  decide

/-! ## Claim C3 -/

/-- C3: the claim "parsing a `YYYY-MM-DD` string rejects invalid day-of-month
values, e.g. `2026-02-31`" fails on the code: `civilDateToEpochMs` only checks
that the three components are integers and then lets `Date.UTC` normalise
overflow, so `"2026-02-31"` is accepted and yields exactly the epoch of
2026-03-03 (day number 20515) instead of an invalid-input error. -/
theorem C3_invalid_day_of_month_accepted :
    civilDateToEpochMs ("2026-02-31") = .ok (20515 * 86400000) ∧
      civilDateToEpochMs ("2026-03-03") = .ok (20515 * 86400000) := by
  decide

/-! ## Claim C4: tier fallback -/

/-- The workout exposes at least one tier variant. -/
def hasAnyTier (w : Workout) : Prop :=
  w.tiers.MED ≠ none ∨ w.tiers.LRG ≠ none ∨ w.tiers.XL ≠ none

theorem firstTierHit_ok_charac (w : Workout) :
    ∀ (l : List String) (v k : String), firstTierHit w l = .ok (v, k) →
      ∃ pre post, l = pre ++ k :: post ∧ (∀ k2 ∈ pre, tiersGet w.tiers k2 = none) ∧
        tiersGet w.tiers k = some v := by
  intro l
  induction l with
  | nil => intro v k h; simp [firstTierHit] at h
  | cons c rest ih =>
      intro v k h
      rw [firstTierHit] at h
      cases hc : tiersGet w.tiers c with
      | some u =>
          rw [hc] at h
          injection h with h2
          injection h2 with hv hk
          subst hv
          subst hk
          exact ⟨[], rest, rfl, by simp, hc⟩
      | none =>
          rw [hc] at h
          obtain ⟨pre, post, hl, hpre, hk⟩ := ih v k h
          refine ⟨c :: pre, post, by rw [hl]; simp, ?_, hk⟩
          intro k2 hk2
          rcases List.mem_cons.mp hk2 with h1 | h1
          · rw [h1]; exact hc
          · exact hpre k2 h1

theorem firstTierHit_total (w : Workout) :
    ∀ l : List String, (∃ c ∈ l, tiersGet w.tiers c ≠ none) →
      ∃ v k, firstTierHit w l = .ok (v, k) := by
  intro l
  induction l with
  | nil => intro h; simp at h
  | cons c rest ih =>
      intro h
      rw [firstTierHit]
      cases hc : tiersGet w.tiers c with
      | some u => exact ⟨u, c, rfl⟩
      | none =>
          obtain ⟨c2, hc2, hne⟩ := h
          rcases List.mem_cons.mp hc2 with h1 | h1
          · rw [h1] at hne; exact absurd hc hne
          · exact ih ⟨c2, h1, hne⟩

/-- C4: tier-fallback resolution, for each requested tier MED/LRG/XL, succeeds
exactly when the workout has at least one tier variant, and a success returns
the variant of the first tier present in that tier's fixed preference order
(`MED→[MED,LRG,XL]`, `LRG→[LRG,MED,XL]`, `XL→[XL,LRG,MED]`), reported as the
source tier: every order position before the chosen tier is absent on the
workout, the chosen tier is present, and its variant is returned.  It throws
exactly when the workout has zero tier variants. -/
theorem C4_tier_fallback_first_present (w : Workout) (tier : String)
    (htier : tier = "MED" ∨ tier = "LRG" ∨ tier = "XL") :
    ((∃ v k, resolveTierVariant w tier = .ok (v, k)) ↔ hasAnyTier w) ∧
      ((∃ e, resolveTierVariant w tier = .error e) ↔ ¬ hasAnyTier w) ∧
      (∀ v k, resolveTierVariant w tier = .ok (v, k) →
        ∃ pre post, fallbackOrderFor tier = pre ++ k :: post ∧
          (∀ k2 ∈ pre, tiersGet w.tiers k2 = none) ∧
          tiersGet w.tiers k = some v) := by
  have hmem : ∀ c, c ∈ fallbackOrderFor tier → tiersGet w.tiers c ≠ none →
      hasAnyTier w := by
    intro c hc hne
    have : c = "MED" ∨ c = "LRG" ∨ c = "XL" := by
      rcases htier with h | h | h <;> rw [h] at hc <;>
        simp [fallbackOrderFor] at hc <;> tauto
    rcases this with h | h | h <;> rw [h] at hne <;>
      simp only [tiersGet, if_pos, if_neg, reduceIte] at hne <;>
      unfold hasAnyTier
    · exact Or.inl hne
    · exact Or.inr (Or.inl hne)
    · exact Or.inr (Or.inr hne)
  have hcover : hasAnyTier w → ∃ c ∈ fallbackOrderFor tier, tiersGet w.tiers c ≠ none := by
    intro h
    have horder : "MED" ∈ fallbackOrderFor tier ∧ "LRG" ∈ fallbackOrderFor tier ∧
        "XL" ∈ fallbackOrderFor tier := by
      rcases htier with h2 | h2 | h2 <;> rw [h2] <;> exact ⟨by decide, by decide, by decide⟩
    rcases h with h | h | h
    · exact ⟨"MED", horder.1, by simpa [tiersGet] using h⟩
    · exact ⟨"LRG", horder.2.1, by simpa [tiersGet] using h⟩
    · exact ⟨"XL", horder.2.2, by simpa [tiersGet] using h⟩
  have hfwd : (∃ v k, resolveTierVariant w tier = .ok (v, k)) ↔ hasAnyTier w := by
    constructor
    · rintro ⟨v, k, hok⟩
      obtain ⟨pre, post, hl, _, hk⟩ := firstTierHit_ok_charac w (fallbackOrderFor tier) v k hok
      have hkmem : k ∈ fallbackOrderFor tier := by rw [hl]; simp
      exact hmem k hkmem (by rw [hk]; simp)
    · intro h
      exact firstTierHit_total w (fallbackOrderFor tier) (hcover h)
  refine ⟨hfwd, ?_, ?_⟩
  · constructor
    · rintro ⟨e, he⟩ hany
      obtain ⟨v, k, hok⟩ := hfwd.mpr hany
      rw [resolveTierVariant] at hok he
      rw [hok] at he
      exact Except.noConfusion he
    · intro hnot
      cases hres : resolveTierVariant w tier with
      | error e => exact ⟨e, rfl⟩
      | ok p => exact absurd (hfwd.mp ⟨p.1, p.2, by rw [hres]⟩) hnot
  · intro v k hok
    exact firstTierHit_ok_charac w (fallbackOrderFor tier) v k hok

/-- C4 witness: for `workoutB`, which exposes only MED and LRG, requesting XL
succeeds (the workout has a tier variant) and in fact yields the LRG variant
with source tier LRG; requesting MED yields MED with source MED. -/
theorem C4_tier_fallback_witness :
    (∃ v k, resolveTierVariant workoutB "XL" = .ok (v, k)) ∧
      resolveTierVariant workoutB "XL" = .ok ("b-lrg", "LRG") ∧
      resolveTierVariant workoutB "MED" = .ok ("b-med", "MED") := by
  refine ⟨?_, by decide, by decide⟩
  exact (C4_tier_fallback_first_present workoutB "XL"
    (Or.inr (Or.inr rfl))).1.mpr (Or.inl (by decide))

/-! ## Format/parse lemmas for civil-date strings -/

theorem splitOnChar_append (sep : Char) (a rest : List Char) (h : sep ∉ a) :
    splitOnChar sep (a ++ sep :: rest) = a :: splitOnChar sep rest := by
  induction a with
  | nil => simp [splitOnChar]
  | cons c a2 ih =>
      have hc : c ≠ sep := by
        intro he
        exact h (by rw [he]; exact List.mem_cons_self _ _)
      have h2 : sep ∉ a2 := fun hm => h (List.mem_cons_of_mem _ hm)
      rw [List.cons_append, splitOnChar, if_neg hc, ih h2]

theorem splitOnChar_no_sep (sep : Char) (a : List Char) (h : sep ∉ a) :
    splitOnChar sep a = [a] := by
  induction a with
  | nil => simp [splitOnChar]
  | cons c a2 ih =>
      have hc : c ≠ sep := by
        intro he
        exact h (by rw [he]; exact List.mem_cons_self _ _)
      have h2 : sep ∉ a2 := fun hm => h (List.mem_cons_of_mem _ hm)
      rw [splitOnChar, if_neg hc, ih h2]

theorem charVal_digitChar (k : Nat) (h : k < 10) : charVal (digitChar k) = k := by
  interval_cases k <;> decide

theorem isDigitChar_digitChar (k : Nat) (h : k < 10) : isDigitChar (digitChar k) = true := by
  interval_cases k <;> decide

theorem digitChar_ne_dash (k : Nat) (h : k < 10) : digitChar k ≠ '-' := by
  interval_cases k <;> decide

theorem natRepr_all_digits (n : Nat) : ∀ c ∈ natRepr n, isDigitChar c = true := by
  rw [natRepr_eq_digits]
  by_cases hn : n = 0
  · rw [if_pos hn]; intro c hc; simp at hc; rw [hc]; decide
  · rw [if_neg hn]
    intro c hc
    obtain ⟨k, hk, hck⟩ := List.mem_map.mp hc
    have hk10 : k < 10 := Nat.digits_lt_base (by norm_num) (List.mem_reverse.mp hk)
    rw [← hck]
    exact isDigitChar_digitChar k hk10

theorem natRepr_ne_nil (n : Nat) : natRepr n ≠ [] := by
  rw [natRepr_eq_digits]
  by_cases hn : n = 0
  · rw [if_pos hn]; simp
  · rw [if_neg hn]
    simp only [ne_eq, List.map_eq_nil_iff, List.reverse_eq_nil_iff]
    exact Nat.digits_ne_nil_iff_ne_zero.mpr hn

theorem dash_notin_natRepr (n : Nat) : '-' ∉ natRepr n := by
  intro hm
  have := natRepr_all_digits n '-' hm
  simp [isDigitChar] at this

theorem decValue_natRepr (n : Nat) : decValue (natRepr n) = n := by
  rw [natRepr_eq_digits]
  by_cases hn : n = 0
  · rw [if_pos hn, hn]; decide
  · rw [if_neg hn]
    unfold decValue
    rw [List.map_map]
    have hmap : ((Nat.digits 10 n).reverse).map (charVal ∘ digitChar)
        = (Nat.digits 10 n).reverse := by
      conv_rhs => rw [← List.map_id ((Nat.digits 10 n).reverse)]
      apply List.map_congr_left
      intro d hd
      simp only [Function.comp_apply, id]
      exact charVal_digitChar d (Nat.digits_lt_base (by norm_num) (List.mem_reverse.mp hd))
    rw [hmap, List.reverse_reverse]
    exact Nat.ofDigits_digits 10 n

theorem ofDigits_replicate_zero (z : Nat) : Nat.ofDigits 10 (List.replicate z 0) = 0 := by
  induction z with
  | zero => simp [Nat.ofDigits]
  | succ k ih => simp [List.replicate_succ, Nat.ofDigits_cons, ih]

theorem decValue_padZeros (k : Nat) (cs : List Char) :
    decValue (padZeros k cs) = decValue cs := by
  unfold padZeros decValue
  rw [List.map_append, List.reverse_append]
  have hrep : (List.replicate (k - cs.length) '0').map charVal
      = List.replicate (k - cs.length) 0 := by
    rw [List.map_replicate]; rfl
  rw [hrep, List.reverse_replicate, Nat.ofDigits_append, ofDigits_replicate_zero]
  omega

theorem padZeros_all_digits (k : Nat) (cs : List Char)
    (h : ∀ c ∈ cs, isDigitChar c = true) :
    ∀ c ∈ padZeros k cs, isDigitChar c = true := by
  intro c hc
  rcases List.mem_append.mp hc with h1 | h1
  · have := List.eq_of_mem_replicate h1
    rw [this]; decide
  · exact h c h1

theorem dash_notin_padZeros (k : Nat) (cs : List Char) (h : '-' ∉ cs) :
    '-' ∉ padZeros k cs := by
  intro hc
  rcases List.mem_append.mp hc with h1 | h1
  · have := List.eq_of_mem_replicate h1
    simp at this
  · exact h h1

theorem jsNumberInt_pad_natRepr (k n : Nat) :
    jsNumberInt (padZeros k (natRepr n)) = some (n : Int) := by
  unfold jsNumberInt
  have hne : ¬ (padZeros k (natRepr n)).isEmpty := by
    unfold padZeros
    cases hrep : List.replicate (k - (natRepr n).length) '0' with
    | nil =>
        simp only [List.nil_append]
        cases hnr : natRepr n with
        | nil => exact absurd hnr (natRepr_ne_nil n)
        | cons c cs => simp [List.isEmpty]
    | cons c cs => simp [List.isEmpty]
  rw [if_neg hne]
  have hall : (padZeros k (natRepr n)).all isDigitChar = true := by
    rw [List.all_eq_true]
    exact padZeros_all_digits k (natRepr n) (natRepr_all_digits n)
  rw [if_pos hall, decValue_padZeros, decValue_natRepr]

theorem intRepr_ofNat (n : Nat) : intRepr (n : Int) = natRepr n := by
  unfold intRepr
  rw [if_neg (by omega)]
  norm_num

theorem intRepr_nonneg (y : Int) (h : 0 ≤ y) : intRepr y = natRepr y.toNat := by
  unfold intRepr
  rw [if_neg (by omega)]

theorem splitOnChar_formatCivilDate (y : Int) (m d : Nat) (h : 0 ≤ y) :
    splitOnChar '-' (formatCivilDate y m d).data
      = [padZeros 4 (natRepr y.toNat), padZeros 2 (natRepr m), padZeros 2 (natRepr d)] := by
  show splitOnChar '-' (padZeros 4 (intRepr y)
      ++ '-' :: (padZeros 2 (natRepr m) ++ '-' :: padZeros 2 (natRepr d))) = _
  rw [intRepr_nonneg y h]
  rw [splitOnChar_append '-' _ _ (dash_notin_padZeros _ _ (dash_notin_natRepr _))]
  rw [splitOnChar_append '-' _ _ (dash_notin_padZeros _ _ (dash_notin_natRepr _))]
  rw [splitOnChar_no_sep '-' _ (dash_notin_padZeros _ _ (dash_notin_natRepr _))]

theorem civilParts_format (y : Int) (m d : Nat) (h : 0 ≤ y) :
    civilParts (formatCivilDate y m d) 0 = some ((y.toNat : Nat) : Int) ∧
      civilParts (formatCivilDate y m d) 1 = some ((m : Nat) : Int) ∧
      civilParts (formatCivilDate y m d) 2 = some ((d : Nat) : Int) := by
  unfold civilParts
  rw [splitOnChar_formatCivilDate y m d h]
  exact ⟨jsNumberInt_pad_natRepr 4 y.toNat, jsNumberInt_pad_natRepr 2 m,
    jsNumberInt_pad_natRepr 2 d⟩

theorem civilDateToEpochMs_format_nonneg (y : Int) (m d : Nat) (h : 0 ≤ y) :
    civilDateToEpochMs (formatCivilDate y m d) = .ok (dateUTC y (m : Int) (d : Int)) := by
  obtain ⟨h0, h1, h2⟩ := civilParts_format y m d h
  unfold civilDateToEpochMs
  rw [h0, h1, h2]
  rw [Int.toNat_of_nonneg h]

def queryMs (q : QueryDate) : Int := dateUTC (q.year : Int) (q.month : Int) (q.day : Int)

theorem queryMs_parse (q : QueryDate) :
    civilDateToEpochMs (toCivilDateString q) = .ok (queryMs q) :=
  civilDateToEpochMs_format_nonneg (q.year : Int) q.month q.day (by omega)

theorem dateUTC_shape (y m d : Int) : ∃ z : Int, dateUTC y m d = msPerDay * z :=
  ⟨_, rfl⟩

theorem civilDateToEpochMs_shape (s : String) (v : Int)
    (h : civilDateToEpochMs s = .ok v) : ∃ z : Int, v = msPerDay * z := by
  unfold civilDateToEpochMs at h
  split at h
  · have hinj := Except.ok.inj h
    rw [← hinj]
    exact dateUTC_shape _ _ _
  · exact absurd h (by simp)

theorem dateUTC_of_canonical (y : Int) (m d : Nat) (hy : 100 ≤ y)
    (hm1 : 1 ≤ m) (hm2 : m ≤ 12) :
    dateUTC y (m : Int) (d : Int) = msPerDay * daysFromCivil y m (d : Int) := by
  simp only [dateUTC]
  have hb : ¬ (0 ≤ y ∧ y ≤ 99) := by omega
  rw [if_neg hb]
  have hq : ((m : Int) - 1) / 12 = 0 := by omega
  rw [hq]
  have e1 : y + 0 = y := by ring
  have e2 : ((m : Int) - 1 - 12 * 0).toNat + 1 = m := by omega
  rw [e1, e2]

/-- Reparsing the formatted civil date of day number `t` is exact whenever the
extracted year is at least 100 (no two-digit-year bump, no sign). -/
theorem reparse_civilFromDays (t : Int) (hy : 100 ≤ (civilFromDays t).1) :
    civilDateToEpochMs (formatCivilDate (civilFromDays t).1 (civilFromDays t).2.1
      (civilFromDays t).2.2) = .ok (msPerDay * t) := by
  have hb := civilFromDays_bounds t
  rw [civilDateToEpochMs_format_nonneg _ _ _ (by omega)]
  rw [dateUTC_of_canonical _ _ _ hy hb.1 hb.2.1]
  rw [civilFromDays_roundtrip t]

theorem addDays_six (s : String) (v : Int) (hok : civilDateToEpochMs s = .ok v) :
    ∃ z : Int, v = msPerDay * z ∧
      addDaysToCivilDate s 6 = .ok (formatCivilDate (civilFromDays (z + 6)).1
        (civilFromDays (z + 6)).2.1 (civilFromDays (z + 6)).2.2) := by
  obtain ⟨z, hz⟩ := civilDateToEpochMs_shape s v hok
  refine ⟨z, hz, ?_⟩
  unfold addDaysToCivilDate
  rw [hok]
  show Except.ok (formatCivilDate (civilFromDays ((v + 6 * msPerDay) / msPerDay)).1
    (civilFromDays ((v + 6 * msPerDay) / msPerDay)).2.1
    (civilFromDays ((v + 6 * msPerDay) / msPerDay)).2.2) = _
  have ht : (v + 6 * msPerDay) / msPerDay = z + 6 := by
    rw [hz]
    simp only [msPerDay]
    omega
  rw [ht]

/-- For a week starting on day `z` with year of `z + 6` at least 100, the
window-end computation `civilDateToEpochMs(addDaysToCivilDate(start, 6))`
yields exactly `start + 6` days: the 7-day window is exact. -/
theorem window_end_exact (s : String) (z : Int)
    (hok : civilDateToEpochMs s = .ok (msPerDay * z))
    (hy : 100 ≤ (civilFromDays (z + 6)).1) :
    ∃ e : String, addDaysToCivilDate s 6 = .ok e ∧
      civilDateToEpochMs e = .ok (msPerDay * (z + 6)) := by
  obtain ⟨z2, hz2, hadd⟩ := addDays_six s (msPerDay * z) hok
  have hzz : z2 = z := by
    simp only [msPerDay] at hz2
    omega
  rw [hzz] at hadd
  exact ⟨_, hadd, reparse_civilFromDays (z + 6) hy⟩

/-! ## Claim C10: the timezone assert runs for every season -/

theorem except_bind_ok {a b : Type} (x : a) (f : a → Except String b) :
    (Except.ok x >>= f : Except String b) = f x := rfl

theorem except_bind_error {a b : Type} (e : String) (f : a → Except String b) :
    (Except.error e >>= f : Except String b) = .error e := rfl

theorem filterSeasonCandidates_bad_tz (dateMs : Int) (tz : String) :
    ∀ seasons : List Season, (∃ s ∈ seasons, s.timezone ≠ tz) →
      ∃ e, filterSeasonCandidates dateMs tz seasons = .error e := by
  intro seasons
  induction seasons with
  | nil => intro h; simp at h
  | cons s rest ih =>
      intro h
      rw [filterSeasonCandidates]
      by_cases ht : s.timezone = tz
      · rw [if_neg (by simp [ht])]
        cases hs : civilDateToEpochMs s.startDate with
        | error e => exact ⟨e, rfl⟩
        | ok a =>
            rw [except_bind_ok]
            cases he : civilDateToEpochMs s.endDate with
            | error e => exact ⟨e, rfl⟩
            | ok b =>
                rw [except_bind_ok]
                have hrest : ∃ s2 ∈ rest, s2.timezone ≠ tz := by
                  obtain ⟨s2, hmem, hne⟩ := h
                  rcases List.mem_cons.mp hmem with h1 | h1
                  · rw [h1] at hne; exact absurd ht hne
                  · exact ⟨s2, h1, hne⟩
                obtain ⟨e, hfe⟩ := ih hrest
                exact ⟨e, by rw [hfe]; rfl⟩
      · exact ⟨_, by rw [if_pos ht]⟩

/-- C10: `resolveActiveSeason` checks the declared timezone of every season in
the list, not only of candidate seasons: whenever any season anywhere in the
list carries a timezone different from the configured zone, the call throws —
for any query date, regardless of whether that season's range contains the
date or another season would match. -/
theorem C10_timezone_assert_covers_all_seasons (seasons : List Season)
    (q : QueryDate) (tz : String) (h : ∃ s ∈ seasons, s.timezone ≠ tz) :
    ∃ e, resolveActiveSeason seasons q tz = .error e := by
  unfold resolveActiveSeason
  rw [queryMs_parse q, except_bind_ok]
  obtain ⟨e, hf⟩ := filterSeasonCandidates_bad_tz (queryMs q) tz seasons h
  exact ⟨e, by rw [hf]; rfl⟩

/-- A season whose declared zone is not the configured one and whose range
(2020) cannot contain the 2026 query date. -/
def seasonWrongTz : Season :=
  { seasonId := "season-utc", timezone := "UTC",
    startDate := "2020-01-06", endDate := "2020-01-19",
    weekIds := ["week-x"] }

/-- C10 witness: with `season1` (matching, containing the query) listed first
and the non-matching `seasonWrongTz` second, resolution for 2026-01-27 throws
even though `season1` alone would have matched. -/
theorem C10_timezone_assert_witness :
    ∃ e, resolveActiveSeason [season1, seasonWrongTz] qTue DEFAULT_TIME_ZONE
      = .error e :=
  C10_timezone_assert_covers_all_seasons [season1, seasonWrongTz] qTue
    DEFAULT_TIME_ZONE ⟨seasonWrongTz, by decide, by decide⟩

/-! ## Claim C5: active-season selection -/

/-- The season's `[startDate, endDate]` range (as parsed by the code) contains
the query's epoch value. -/
def seasonContains (s : Season) (dateMs : Int) : Prop :=
  ∃ a b : Int, civilDateToEpochMs s.startDate = .ok a ∧
    civilDateToEpochMs s.endDate = .ok b ∧ a ≤ dateMs ∧ dateMs ≤ b

/-- Decidable version of `seasonContains`. -/
def seasonContainsB (s : Season) (dateMs : Int) : Bool :=
  match civilDateToEpochMs s.startDate, civilDateToEpochMs s.endDate with
  | .ok a, .ok b => decide (a ≤ dateMs ∧ dateMs ≤ b)
  | _, _ => false

theorem seasonContainsB_iff (s : Season) (d : Int) :
    seasonContainsB s d = true ↔ seasonContains s d := by
  unfold seasonContainsB seasonContains
  cases hsa : civilDateToEpochMs s.startDate <;>
    cases hsb : civilDateToEpochMs s.endDate <;> simp

/-- The parsed start epoch of a season (0 for an unparseable date; under the
parseability hypotheses of the theorems below it is the parsed value). -/
def startMsOf (s : Season) : Int :=
  match civilDateToEpochMs s.startDate with
  | .ok a => a
  | .error _ => 0

theorem filterSeasonCandidates_ok (dateMs : Int) (tz : String) :
    ∀ seasons : List Season,
      (∀ s ∈ seasons, s.timezone = tz) →
      (∀ s ∈ seasons, (∃ a, civilDateToEpochMs s.startDate = .ok a) ∧
        (∃ b, civilDateToEpochMs s.endDate = .ok b)) →
      filterSeasonCandidates dateMs tz seasons
        = .ok (seasons.filter (fun s => seasonContainsB s dateMs)) := by
  intro seasons
  induction seasons with
  | nil => intro _ _; rfl
  | cons s rest ih =>
      intro htz hp
      rw [filterSeasonCandidates]
      rw [if_neg (by simp [htz s (List.mem_cons_self s rest)])]
      obtain ⟨⟨a, ha⟩, ⟨b, hb⟩⟩ := hp s (List.mem_cons_self s rest)
      rw [ha, except_bind_ok, hb, except_bind_ok]
      rw [ih (fun s2 h2 => htz s2 (List.mem_cons_of_mem _ h2))
          (fun s2 h2 => hp s2 (List.mem_cons_of_mem _ h2))]
      rw [except_bind_ok]
      by_cases hc : a ≤ dateMs ∧ dateMs ≤ b
      · rw [if_pos hc]
        have hcb : seasonContainsB s dateMs = true := by
          unfold seasonContainsB
          rw [ha, hb]
          exact decide_eq_true hc
        have hfeq : List.filter (fun s => seasonContainsB s dateMs) (s :: rest)
            = s :: List.filter (fun s => seasonContainsB s dateMs) rest := by
          simp [List.filter_cons, hcb]
        rw [hfeq]
        rfl
      · rw [if_neg hc]
        have hcb : seasonContainsB s dateMs = false := by
          unfold seasonContainsB
          rw [ha, hb]
          simpa using hc
        have hfeq : List.filter (fun s => seasonContainsB s dateMs) (s :: rest)
            = List.filter (fun s => seasonContainsB s dateMs) rest := by
          simp [List.filter_cons, hcb]
        rw [hfeq]
        rfl

theorem reduceLatestSeason_spec :
    ∀ (l : List Season) (c : Season),
      (∀ s ∈ c :: l, ∃ a, civilDateToEpochMs s.startDate = .ok a) →
      ∃ best, reduceLatestSeason c l = .ok best ∧ best ∈ c :: l ∧
        ∀ s ∈ c :: l, startMsOf s ≤ startMsOf best := by
  intro l
  induction l with
  | nil =>
      intro c hp
      refine ⟨c, rfl, List.mem_cons_self c [], ?_⟩
      intro s hs
      rw [List.mem_singleton] at hs
      rw [hs]
  | cons cur t ih =>
      intro c hp
      rw [reduceLatestSeason]
      obtain ⟨ac, hac⟩ := hp c (List.mem_cons_self _ _)
      obtain ⟨au, hau⟩ := hp cur (List.mem_cons_of_mem _ (List.mem_cons_self _ _))
      rw [hac, except_bind_ok, hau, except_bind_ok]
      have hsc : startMsOf c = ac := by unfold startMsOf; rw [hac]
      have hsu : startMsOf cur = au := by unfold startMsOf; rw [hau]
      set c2 := if au ≥ ac then cur else c with hc2
      have hc2cases : c2 = cur ∨ c2 = c := by
        rw [hc2]
        by_cases hcmp : au ≥ ac
        · rw [if_pos hcmp]; exact Or.inl rfl
        · rw [if_neg hcmp]; exact Or.inr rfl
      have hp2 : ∀ s ∈ c2 :: t, ∃ a, civilDateToEpochMs s.startDate = .ok a := by
        intro s hs
        rcases List.mem_cons.mp hs with h1 | h1
        · rcases hc2cases with h2 | h2
          · rw [h1, h2]; exact ⟨au, hau⟩
          · rw [h1, h2]; exact ⟨ac, hac⟩
        · exact hp s (List.mem_cons_of_mem _ (List.mem_cons_of_mem _ h1))
      obtain ⟨best, hred, hmem, hall⟩ := ih c2 hp2
      have hge : startMsOf c ≤ startMsOf c2 ∧ startMsOf cur ≤ startMsOf c2 := by
        rw [hc2]
        by_cases hcmp : au ≥ ac
        · rw [if_pos hcmp, hsc, hsu]; omega
        · rw [if_neg hcmp, hsc, hsu]; omega
      refine ⟨best, hred, ?_, ?_⟩
      · rcases List.mem_cons.mp hmem with h1 | h1
        · rcases hc2cases with h2 | h2
          · rw [h1, h2]
            exact List.mem_cons_of_mem _ (List.mem_cons_self _ _)
          · rw [h1, h2]
            exact List.mem_cons_self _ _
        · exact List.mem_cons_of_mem _ (List.mem_cons_of_mem _ h1)
      · intro s hs
        have hbest2 := hall c2 (List.mem_cons_self _ _)
        rcases List.mem_cons.mp hs with h1 | h1
        · rw [h1]; exact le_trans hge.1 hbest2
        · rcases List.mem_cons.mp h1 with h2 | h2
          · rw [h2]; exact le_trans hge.2 hbest2
          · exact hall s (List.mem_cons_of_mem _ h2)

/-- C5: under the hypotheses that every season declares the configured zone
and has parseable range endpoints (otherwise the call throws),
`resolveActiveSeason` succeeds, returns `null` exactly when no season's
inclusive `[startDate, endDate]` range contains the query date (so a date
equal to `startDate` or `endDate` is included and a date one day outside is
not), and any returned season is a containing season whose start epoch is
greatest among all containing seasons. -/
theorem C5_resolveActiveSeason_latest_containing (seasons : List Season)
    (q : QueryDate) (tz : String)
    (htz : ∀ s ∈ seasons, s.timezone = tz)
    (hp : ∀ s ∈ seasons, (∃ a, civilDateToEpochMs s.startDate = .ok a) ∧
      (∃ b, civilDateToEpochMs s.endDate = .ok b)) :
    ∃ r, resolveActiveSeason seasons q tz = .ok r ∧
      ((r = none) ↔ ∀ s ∈ seasons, ¬ seasonContains s (queryMs q)) ∧
      (∀ best, r = some best → best ∈ seasons ∧ seasonContains best (queryMs q) ∧
        ∀ s ∈ seasons, seasonContains s (queryMs q) → startMsOf s ≤ startMsOf best) := by
  unfold resolveActiveSeason
  rw [queryMs_parse q, except_bind_ok]
  rw [filterSeasonCandidates_ok (queryMs q) tz seasons htz hp]
  cases hfil : seasons.filter (fun s => seasonContainsB s (queryMs q)) with
  | nil =>
      refine ⟨none, rfl, ?_, ?_⟩
      · simp only [true_iff]
        intro s hs hcon
        have : s ∈ seasons.filter (fun s => seasonContainsB s (queryMs q)) :=
          List.mem_filter.mpr ⟨hs, (seasonContainsB_iff s (queryMs q)).mpr hcon⟩
        rw [hfil] at this
        simp at this
      · intro best hb
        exact absurd hb (by simp)
  | cons c t =>
      have hp2 : ∀ s ∈ c :: t, ∃ a, civilDateToEpochMs s.startDate = .ok a := by
        intro s hs
        rw [← hfil] at hs
        exact (hp s (List.mem_of_mem_filter hs)).1
      obtain ⟨best, hred, hmem, hall⟩ := reduceLatestSeason_spec t c hp2
      refine ⟨some best, ?_, ?_, ?_⟩
      · show (reduceLatestSeason c t >>= fun b =>
            pure (some b) : Except String (Option Season)) = .ok (some best)
        rw [hred]
        rfl
      · constructor
        · intro h; exact absurd h (by simp)
        · intro h
          have hcmem : c ∈ seasons.filter (fun s => seasonContainsB s (queryMs q)) := by
            rw [hfil]; exact List.mem_cons_self _ _
          have := (seasonContainsB_iff c (queryMs q)).mp (List.mem_filter.mp hcmem).2
          exact absurd this (h c (List.mem_of_mem_filter hcmem))
      · intro b2 hb2
        have hb2best : b2 = best := by
          injection hb2 with h2
          exact h2.symm
        rw [hb2best]
        have hbmem : best ∈ seasons.filter (fun s => seasonContainsB s (queryMs q)) := by
          rw [hfil]; exact hmem
        refine ⟨List.mem_of_mem_filter hbmem,
          (seasonContainsB_iff best (queryMs q)).mp (List.mem_filter.mp hbmem).2, ?_⟩
        intro s hs hcon
        have hsfil : s ∈ seasons.filter (fun s => seasonContainsB s (queryMs q)) :=
          List.mem_filter.mpr ⟨hs, (seasonContainsB_iff s (queryMs q)).mpr hcon⟩
        rw [hfil] at hsfil
        exact hall s hsfil

/-- C5 witness: for the one-season dataset, the theorem applies at the season
start date itself; moreover direct evaluation shows both boundary dates are
included and one day outside either bound yields `null`. -/
theorem C5_resolveActiveSeason_witness :
    (∃ r, resolveActiveSeason [season1] ⟨2026, 1, 26⟩ DEFAULT_TIME_ZONE = .ok r ∧
      ((r = none) ↔ ∀ s ∈ [season1], ¬ seasonContains s (queryMs ⟨2026, 1, 26⟩)) ∧
      (∀ best, r = some best → best ∈ [season1] ∧
        seasonContains best (queryMs ⟨2026, 1, 26⟩) ∧
        ∀ s ∈ [season1], seasonContains s (queryMs ⟨2026, 1, 26⟩) →
          startMsOf s ≤ startMsOf best)) ∧
      resolveActiveSeason [season1] ⟨2026, 1, 26⟩ DEFAULT_TIME_ZONE = .ok (some season1) ∧
      resolveActiveSeason [season1] ⟨2026, 2, 8⟩ DEFAULT_TIME_ZONE = .ok (some season1) ∧
      resolveActiveSeason [season1] ⟨2026, 1, 25⟩ DEFAULT_TIME_ZONE = .ok none ∧
      resolveActiveSeason [season1] ⟨2026, 2, 9⟩ DEFAULT_TIME_ZONE = .ok none := by
  refine ⟨?_, by decide, by decide, by decide, by decide⟩
  refine C5_resolveActiveSeason_latest_containing [season1] ⟨2026, 1, 26⟩
    DEFAULT_TIME_ZONE (by intro s hs; rw [List.mem_singleton] at hs; rw [hs]; rfl) ?_
  intro s hs
  rw [List.mem_singleton] at hs
  rw [hs]
  exact ⟨⟨20479 * 86400000, by decide⟩, ⟨20492 * 86400000, by decide⟩⟩

/-! ## Claim C6: week-within-season lookup -/

/-- The window-end computation of `resolveWeekForDate`:
`civilDateToEpochMs(addDaysToCivilDate(week.startDate, 6))`. -/
def weekEndMs (w : Week) : Except String Int := do
  let e ← addDaysToCivilDate w.startDate 6
  civilDateToEpochMs e

/-- The week's civil-date window `[startDate, startDate + 6 days]` (as computed
by the code) contains the query's epoch value. -/
def weekWindowContains (w : Week) (dateMs : Int) : Prop :=
  ∃ s e : Int, civilDateToEpochMs w.startDate = .ok s ∧ weekEndMs w = .ok e ∧
    s ≤ dateMs ∧ dateMs ≤ e

theorem weekEndMs_exact (w : Week) (z : Int)
    (hs : civilDateToEpochMs w.startDate = .ok (msPerDay * z))
    (hy : 100 ≤ (civilFromDays (z + 6)).1) :
    weekEndMs w = .ok (msPerDay * (z + 6)) := by
  obtain ⟨e, hadd, hend⟩ := window_end_exact w.startDate z hs hy
  unfold weekEndMs
  rw [hadd, except_bind_ok, hend]

theorem weekWindowContains_iff (w : Week) (z : Int) (d : Int)
    (hs : civilDateToEpochMs w.startDate = .ok (msPerDay * z))
    (he : weekEndMs w = .ok (msPerDay * (z + 6))) :
    weekWindowContains w d ↔ (msPerDay * z ≤ d ∧ d ≤ msPerDay * (z + 6)) := by
  unfold weekWindowContains
  constructor
  · rintro ⟨s, e, hs2, he2, h1, h2⟩
    rw [hs] at hs2
    rw [he] at he2
    have hse := Except.ok.inj hs2
    have hee := Except.ok.inj he2
    omega
  · intro h
    exact ⟨msPerDay * z, msPerDay * (z + 6), hs, he, h.1, h.2⟩

theorem resolveOrderedWeeks_ok (weeks : List Week) :
    ∀ ids : List String,
      (∀ id ∈ ids, ∃ w, mapGetLast Week.weekId weeks id = some w) →
      ∃ ows, resolveOrderedWeeks weeks ids = .ok ows ∧
        ∀ w ∈ ows, ∃ id ∈ ids, mapGetLast Week.weekId weeks id = some w := by
  intro ids
  induction ids with
  | nil => intro _; exact ⟨[], rfl, by simp⟩
  | cons id rest ih =>
      intro h
      obtain ⟨w, hw⟩ := h id (List.mem_cons_self _ _)
      obtain ⟨ows, hows, hmem⟩ := ih (fun i hi => h i (List.mem_cons_of_mem _ hi))
      refine ⟨w :: ows, ?_, ?_⟩
      · rw [resolveOrderedWeeks, hw, hows]
        rfl
      · intro w2 hw2
        rcases List.mem_cons.mp hw2 with h1 | h1
        · exact ⟨id, List.mem_cons_self _ _, by rw [h1]; exact hw⟩
        · obtain ⟨i2, hi2, hl2⟩ := hmem w2 h1
          exact ⟨i2, List.mem_cons_of_mem _ hi2, hl2⟩

theorem findWeekLoop_spec (dateMs : Int) (tz : String) :
    ∀ (ows : List Week) (i0 : Nat),
      (∀ w ∈ ows, ∃ z : Int, civilDateToEpochMs w.startDate = .ok (msPerDay * z) ∧
        100 ≤ (civilFromDays (z + 6)).1 ∧
        weekdayForCivilDate w.startDate tz = .ok ("Mon")) →
      ∃ r, findWeekLoop dateMs tz ows i0 = .ok r ∧
        ((r = none) ↔ ∀ w ∈ ows, ¬ weekWindowContains w dateMs) ∧
        (∀ w i, r = some (w, i) → i0 ≤ i ∧ ows.get? (i - i0) = some w ∧
          weekWindowContains w dateMs ∧
          ∀ j w2, j < i - i0 → ows.get? j = some w2 → ¬ weekWindowContains w2 dateMs) := by
  intro ows
  induction ows with
  | nil =>
      intro i0 _
      refine ⟨none, rfl, by simp, ?_⟩
      intro w i h
      exact absurd h (by simp)
  | cons w rest ih =>
      intro i0 hp
      obtain ⟨z, hs, hy, hMon⟩ := hp w (List.mem_cons_self _ _)
      obtain ⟨e, hadd, hend⟩ := window_end_exact w.startDate z hs hy
      have hEnd : weekEndMs w = .ok (msPerDay * (z + 6)) := weekEndMs_exact w z hs hy
      have hciff := weekWindowContains_iff w z dateMs hs hEnd
      rw [findWeekLoop, hs, except_bind_ok, hadd, except_bind_ok, hend, except_bind_ok]
      by_cases hin : msPerDay * z ≤ dateMs ∧ dateMs ≤ msPerDay * (z + 6)
      · rw [if_pos hin, hMon, except_bind_ok, if_pos rfl]
        refine ⟨some (w, i0), rfl, ?_, ?_⟩
        · constructor
          · intro h; exact absurd h (by simp)
          · intro h
            exact absurd (hciff.mpr hin) (h w (List.mem_cons_self _ _))
        · intro w2 i h
          have h2 := Option.some.inj h
          injection h2 with ha hb
          rw [← ha, ← hb]
          refine ⟨le_refl _, by simp, hciff.mpr hin, ?_⟩
          intro j w3 hj
          omega
      · rw [if_neg hin]
        obtain ⟨r, hr, hiff, hsome⟩ := ih (i0 + 1)
          (fun w2 h2 => hp w2 (List.mem_cons_of_mem _ h2))
        have hnotc : ¬ weekWindowContains w dateMs := fun hc => hin (hciff.mp hc)
        refine ⟨r, hr, ?_, ?_⟩
        · rw [hiff]
          constructor
          · intro h w2 hw2
            rcases List.mem_cons.mp hw2 with h1 | h1
            · rw [h1]; exact hnotc
            · exact h w2 h1
          · intro h w2 hw2
            exact h w2 (List.mem_cons_of_mem _ hw2)
        · intro w2 i h
          obtain ⟨hle, hget, hcon, hprev⟩ := hsome w2 i h
          have hle0 : i0 ≤ i := by omega
          have hidx : i - i0 = (i - (i0 + 1)) + 1 := by omega
          refine ⟨hle0, ?_, hcon, ?_⟩
          · rw [hidx]
            simpa using hget
          · intro j w3 hj hget3
            rw [hidx] at hj
            cases j with
            | zero =>
                have : w3 = w := by
                  simp at hget3
                  rw [hget3]
                rw [this]
                exact hnotc
            | succ j2 =>
                have hj2 : j2 < i - (i0 + 1) := by omega
                have hget2 : rest.get? j2 = some w3 := by simpa using hget3
                exact hprev j2 w3 hj2 hget2

/-- C6: under the hypotheses that every `weekIds` entry resolves in the week
map and every resolved week has a parseable Monday start date (with the
civil year of `start + 6` at least 100, ruling out the two-digit-year corner),
`resolveWeekForDate` succeeds; every resolved week's window-end computation is
exactly its start plus 6 civil days (the window is always exactly 7 calendar
days — the arithmetic is UTC-epoch based, hence DST-independent); the result
is `null` exactly when no ordered week's window `[start, start + 6 days]`
contains the query date; and a returned pair is the first week, in
`season.weekIds` order, whose window contains the date, paired with its
zero-based index in that order. -/
theorem C6_resolveWeekForDate_first_window (season : Season) (weeks : List Week)
    (q : QueryDate) (tz : String)
    (hws : ∀ id ∈ season.weekIds, ∃ w, mapGetLast Week.weekId weeks id = some w)
    (hparse : ∀ id w, id ∈ season.weekIds → mapGetLast Week.weekId weeks id = some w →
      ∃ z : Int, civilDateToEpochMs w.startDate = .ok (msPerDay * z) ∧
        100 ≤ (civilFromDays (z + 6)).1 ∧
        weekdayForCivilDate w.startDate tz = .ok ("Mon")) :
    ∃ ows r, resolveOrderedWeeks weeks season.weekIds = .ok ows ∧
      resolveWeekForDate (some season) weeks q tz = .ok r ∧
      (∀ w ∈ ows, ∃ z : Int, civilDateToEpochMs w.startDate = .ok (msPerDay * z) ∧
        weekEndMs w = .ok (msPerDay * (z + 6))) ∧
      ((r = none) ↔ ∀ w ∈ ows, ¬ weekWindowContains w (queryMs q)) ∧
      (∀ w i, r = some (w, i) → ows.get? i = some w ∧
        weekWindowContains w (queryMs q) ∧
        ∀ j w2, j < i → ows.get? j = some w2 → ¬ weekWindowContains w2 (queryMs q)) := by
  obtain ⟨ows, hows, homem⟩ := resolveOrderedWeeks_ok weeks season.weekIds hws
  have hp2 : ∀ w ∈ ows, ∃ z : Int, civilDateToEpochMs w.startDate = .ok (msPerDay * z) ∧
      100 ≤ (civilFromDays (z + 6)).1 ∧
      weekdayForCivilDate w.startDate tz = .ok ("Mon") := by
    intro w hw
    obtain ⟨id, hid, hlook⟩ := homem w hw
    exact hparse id w hid hlook
  obtain ⟨r, hloop, hiff, hsome⟩ := findWeekLoop_spec (queryMs q) tz ows 0 hp2
  refine ⟨ows, r, hows, ?_, ?_, hiff, ?_⟩
  · unfold resolveWeekForDate
    show (do
        let dateMs ← civilDateToEpochMs (toCivilDateString q)
        let orderedWeeks ← resolveOrderedWeeks weeks season.weekIds
        findWeekLoop dateMs tz orderedWeeks 0 : Except String (Option (Week × Nat)))
      = Except.ok r
    rw [queryMs_parse q, except_bind_ok, hows, except_bind_ok]
    exact hloop
  · intro w hw
    obtain ⟨z, hs, hy, _⟩ := hp2 w hw
    exact ⟨z, hs, weekEndMs_exact w z hs hy⟩
  · intro w i h
    obtain ⟨_, hget, hcon, hprev⟩ := hsome w i h
    refine ⟨by simpa using hget, hcon, ?_⟩
    intro j w2 hj hget2
    exact hprev j w2 (by omega) hget2

/-- A second week leaving a one-week gap after `week1`. -/
def week2g : Week :=
  { weekId := "week-2g", seasonId := "season-1", blockId := "block-x",
    startDate := "2026-02-09", workouts := restWeekDays }

/-- A season whose ordered weeks are `week1` (2026-01-26) and `week2g`
(2026-02-09), with a gap week in between. -/
def seasonGap : Season :=
  { seasonId := "season-gap", timezone := "America/Los_Angeles",
    startDate := "2026-01-26", endDate := "2026-02-15",
    weekIds := ["week-1", "week-2g"] }

/-- C6 witness: the theorem applies at Tuesday 2026-01-27 for the gap season;
direct evaluation additionally shows the first window's week is returned with
index 0, the second with index 1, and the gap date 2026-02-04 yields `null`. -/
theorem C6_resolveWeekForDate_witness :
    (∃ ows r, resolveOrderedWeeks [week1, week2g] seasonGap.weekIds = .ok ows ∧
      resolveWeekForDate (some seasonGap) [week1, week2g] qTue DEFAULT_TIME_ZONE
        = .ok r ∧
      (∀ w ∈ ows, ∃ z : Int, civilDateToEpochMs w.startDate = .ok (msPerDay * z) ∧
        weekEndMs w = .ok (msPerDay * (z + 6))) ∧
      ((r = none) ↔ ∀ w ∈ ows, ¬ weekWindowContains w (queryMs qTue)) ∧
      (∀ w i, r = some (w, i) → ows.get? i = some w ∧
        weekWindowContains w (queryMs qTue) ∧
        ∀ j w2, j < i → ows.get? j = some w2 → ¬ weekWindowContains w2 (queryMs qTue))) ∧
    resolveWeekForDate (some seasonGap) [week1, week2g] qTue DEFAULT_TIME_ZONE
      = .ok (some (week1, 0)) ∧
    resolveWeekForDate (some seasonGap) [week1, week2g] ⟨2026, 2, 10⟩ DEFAULT_TIME_ZONE
      = .ok (some (week2g, 1)) ∧
    resolveWeekForDate (some seasonGap) [week1, week2g] ⟨2026, 2, 4⟩ DEFAULT_TIME_ZONE
      = .ok none := by
  refine ⟨?_, by decide, by decide, by decide⟩
  refine C6_resolveWeekForDate_first_window seasonGap [week1, week2g] qTue
    DEFAULT_TIME_ZONE ?_ ?_
  · intro id hid
    rcases List.mem_cons.mp hid with h1 | h1
    · rw [h1]; exact ⟨week1, by decide⟩
    · rw [List.mem_singleton] at h1
      rw [h1]; exact ⟨week2g, by decide⟩
  · intro id w hid hlook
    rcases List.mem_cons.mp hid with h1 | h1
    · rw [h1] at hlook
      have h2 : mapGetLast Week.weekId [week1, week2g] ("week-1") = some week1 := by decide
      rw [h2] at hlook
      have hw := Option.some.inj hlook
      rw [← hw]
      exact ⟨20479, by decide, by decide, by decide⟩
    · rw [List.mem_singleton] at h1
      rw [h1] at hlook
      have h2 : mapGetLast Week.weekId [week1, week2g] ("week-2g") = some week2g := by decide
      rw [h2] at hlook
      have hw := Option.some.inj hlook
      rw [← hw]
      exact ⟨20493, by decide, by decide, by decide⟩

/-! ## Claim C7: draft workouts are never resolution targets -/

/-- C7: whenever resolution reaches a week day whose reference names a
workout id/version all of whose library entries are draft (in particular when
the referenced workout is a draft), `resolveWorkoutOfDay` throws the
`not found or is draft` error — it neither returns the draft workout, nor
falls back to another version, nor returns `null`. -/
theorem C7_draft_reference_throws (data : CalendarData) (q : QueryDate)
    (tz : String) (season : Season) (week : Week) (index : Nat)
    (ref workoutId : String) (version : Nat)
    (h1 : resolveActiveSeason data.seasons q tz = .ok (some season))
    (h2 : resolveWeekForDate (some season) data.weeks q tz = .ok (some (week, index)))
    (h3 : weekWorkoutsGet week.workouts (dayKeyForDate q) = some ref)
    (h4 : parseWorkoutRef ref = some (workoutId, version))
    (h5 : ∃ w ∈ data.workouts, w.workoutId = workoutId ∧ w.version = version ∧
      w.status = "draft")
    (h6 : ∀ w ∈ data.workouts, w.workoutId = workoutId → w.version = version →
      w.status = "draft") :
    resolveWorkoutOfDay data q tz
      = .error ("Workout " ++ workoutId ++ "@v" ++ (⟨natRepr version⟩ : String)
        ++ " not found or is draft.") := by
  have hfind : resolveWorkoutByVersion data.workouts workoutId version = none := by
    unfold resolveWorkoutByVersion
    rw [List.find?_eq_none]
    intro w hw
    intro htrue
    simp only [Bool.and_eq_true, beq_iff_eq, bne_iff_ne, ne_eq] at htrue
    exact htrue.2 (h6 w hw htrue.1.1 htrue.1.2)
  simp only [resolveWorkoutOfDay, h1, h2, h3, h4, hfind, except_bind_ok]
  rfl

def week1d : Week :=
  { weekId := "week-1d", seasonId := "season-1d", blockId := "block-x",
    startDate := "2026-01-26",
    workouts := { restWeekDays with tue := some "workout-d@v2" } }

def season1d : Season :=
  { seasonId := "season-1d", timezone := "America/Los_Angeles",
    startDate := "2026-01-26", endDate := "2026-02-08",
    weekIds := ["week-1d"] }

/-- A dataset whose Tuesday reference names a draft workout version. -/
def dataDraft : CalendarData :=
  { seasons := [season1d], blocks := [], weeks := [week1d],
    workouts := [workoutD] }

/-- C7 witness: for the concrete dataset whose Tuesday of week 1 references
the draft `workout-d@v2`, resolution at 2026-01-27 throws. -/
theorem C7_draft_reference_witness :
    ∃ e, resolveWorkoutOfDay dataDraft qTue DEFAULT_TIME_ZONE = .error e := by
  refine ⟨_, C7_draft_reference_throws dataDraft qTue DEFAULT_TIME_ZONE season1d
    week1d 0 ("workout-d@v2") ("workout-d") 2 (by decide) (by decide) (by decide)
    (by decide) ⟨workoutD, by decide, by decide, by decide, by decide⟩ ?_⟩
  intro w hw h7 h8
  have hw2 : w ∈ [workoutD] := hw
  rw [List.mem_singleton] at hw2
  rw [hw2]
  rfl

/-! ## Claim C2: the reference grammar is pinned-only -/

theorem takeWhile_stop {p : Char → Bool} :
    ∀ (l1 : List Char) (a : Char) (l2 : List Char),
      (∀ x ∈ l1, p x = true) → p a = false →
      (l1 ++ a :: l2).takeWhile p = l1 ∧ (l1 ++ a :: l2).dropWhile p = a :: l2 := by
  intro l1
  induction l1 with
  | nil =>
      intro a l2 _ h2
      simp [List.takeWhile_cons, List.dropWhile_cons, h2]
  | cons c t ih =>
      intro a l2 h1 h2
      have hc : p c = true := h1 c (List.mem_cons_self _ _)
      have ht := ih a l2 (fun x hx => h1 x (List.mem_cons_of_mem _ hx)) h2
      simp [List.takeWhile_cons, List.dropWhile_cons, hc, ht.1, ht.2]

theorem isRefIdChar_ne_at (c : Char) (h : isRefIdChar c = true) :
    (c ≠ '@') = True := by
  simp only [ne_eq, eq_iff_iff, iff_true]
  intro he
  rw [he] at h
  exact absurd h (by decide)

/-- C2 counterexample: `"workout-tempo-40"` is a well-formed bare reference
(`^[a-z0-9-]+$`), yet `parseWorkoutRef` rejects it — a bare reference is a
fatal parse error, refuting the claim that the parser accepts bare ids. -/
theorem C2_bare_reference_rejected :
    ("workout-tempo-40").data.all isRefIdChar = true ∧
      ("workout-tempo-40" : String) ≠ "" ∧
      parseWorkoutRef ("workout-tempo-40") = none := by
  decide

/-- C2 (amended): `parseWorkoutRef` succeeds exactly on the pinned grammar
`^[a-z0-9-]+@v[1-9][0-9]*$` — the input decomposes as a non-empty `[a-z0-9-]`
id, the literal `@v`, and a non-empty digit string with no leading zero whose
decimal value is the version; every string of bare-id shape (`^[a-z0-9-]*$`,
in particular every bare workoutId) is a parse error; and there is no
latest-version fallback: `resolveWorkoutByVersion` only ever returns a workout
whose id and version match the request exactly and whose status is not
`draft`. -/
theorem C2_reference_grammar_pinned_only (v id : String) (n : Nat) :
    (parseWorkoutRef v = some (id, n) ↔
      (∃ ds : List Char, v.data = id.data ++ '@' :: 'v' :: ds ∧
        id.data ≠ [] ∧ id.data.all isRefIdChar = true ∧ ds ≠ [] ∧
        ds.all isDigitChar = true ∧ ds.head? ≠ some '0' ∧ n = decValue ds)) ∧
    (v.data.all isRefIdChar = true → parseWorkoutRef v = none) ∧
    (∀ (workouts : List Workout) (wid : String) (ver : Nat) (w : Workout),
      resolveWorkoutByVersion workouts wid ver = some w →
      w.workoutId = wid ∧ w.version = ver ∧ w.status ≠ "draft") := by
  refine ⟨⟨?_, ?_⟩, ?_, ?_⟩
  · intro h
    unfold parseWorkoutRef at h
    split at h
    · next ds heq =>
        split at h
        · next hcond =>
            obtain ⟨hne, hall, hdne, hdig, hhd⟩ := hcond
            have hpair := Option.some.inj h
            injection hpair with hid hn
            refine ⟨ds, ?_, ?_, ?_, hdne, hdig, hhd, hn.symm⟩
            · rw [← hid]
              show v.data = (v.data.takeWhile (fun c => decide (c ≠ '@'))) ++ '@' :: 'v' :: ds
              rw [← heq]
              rw [List.takeWhile_append_dropWhile]
            · rw [← hid]; exact hne
            · rw [← hid]; exact hall
        · exact absurd h (by simp)
    · exact absurd h (by simp)
  · rintro ⟨ds, hdata, hne, hall, hdne, hdig, hhd, hn⟩
    unfold parseWorkoutRef
    have hstop := takeWhile_stop (p := fun c => decide (c ≠ '@')) id.data '@'
      ('v' :: ds) ?hall2 (by simp)
    case hall2 =>
      intro x hx
      have hxc : isRefIdChar x = true := by
        rw [List.all_eq_true] at hall
        exact hall x hx
      simp [isRefIdChar_ne_at x hxc]
    rw [hdata]
    rw [hstop.1, hstop.2]
    show (if id.data ≠ [] ∧ id.data.all isRefIdChar = true ∧ ds ≠ [] ∧
        ds.all isDigitChar = true ∧ ds.head? ≠ some '0' then
        some (({ data := id.data } : String), decValue ds) else none) = some (id, n)
    rw [if_pos ⟨hne, hall, hdne, hdig, hhd⟩, hn]
  · intro hbare
    unfold parseWorkoutRef
    have hdrop : v.data.dropWhile (fun c => c ≠ '@') = [] := by
      rw [List.dropWhile_eq_nil_iff]
      intro x hx
      have hxc : isRefIdChar x = true := by
        rw [List.all_eq_true] at hbare
        exact hbare x hx
      simp [isRefIdChar_ne_at x hxc]
    rw [hdrop]
  · intro workouts wid ver w hfind
    have hp := List.find?_some hfind
    simp only [Bool.and_eq_true, beq_iff_eq, bne_iff_ne, ne_eq] at hp
    exact ⟨hp.1.1, hp.1.2, hp.2⟩

/-- C2 witness: the amended grammar theorem applied at the pinned reference
`workout-tempo-40@v12`, which parses to id `workout-tempo-40`, version 12. -/
theorem C2_reference_grammar_witness :
    parseWorkoutRef ("workout-tempo-40@v12") = some ("workout-tempo-40", 12) :=
  ((C2_reference_grammar_pinned_only ("workout-tempo-40@v12")
    ("workout-tempo-40") 12).1).mpr
    ⟨['1', '2'], by decide, by decide, by decide, by decide, by decide, by decide,
      by decide⟩

/-! ## Claim C8: accepted seasons satisfy startDate < endDate -/

theorem except_bind_ok_inv {a b : Type} (x : Except String a) (f : a → Except String b)
    (u : b) (h : (x >>= f) = .ok u) : ∃ v, x = .ok v ∧ f v = .ok u := by
  cases x with
  | error e =>
      rw [except_bind_error] at h
      exact absurd h (by simp)
  | ok v =>
      rw [except_bind_ok] at h
      exact ⟨v, rfl, h⟩

theorem forEachCheck_ok {a : Type} (f : a → Except String Unit) :
    ∀ l : List a, forEachCheck f l = .ok () → ∀ x ∈ l, f x = .ok () := by
  intro l
  induction l with
  | nil => intro _ x hx; simp at hx
  | cons c rest ih =>
      intro h x hx
      rw [forEachCheck] at h
      obtain ⟨v, hc, hrest⟩ := except_bind_ok_inv _ _ _ h
      rcases List.mem_cons.mp hx with h1 | h1
      · rw [h1]
        cases v
        exact hc
      · exact ih hrest x h1

theorem ite_error_ok {a : Type} (c : Prop) [Decidable c] (e : String)
    (x : Except String a) (u : a)
    (h : (if c then Except.error e else x) = .ok u) : ¬ c ∧ x = .ok u := by
  by_cases hc : c
  · rw [if_pos hc] at h
    exact absurd h (by simp)
  · rw [if_neg hc] at h
    exact ⟨hc, h⟩

theorem jsNumberInt_nonneg (cs : List Char) (x : Int) (h : jsNumberInt cs = some x) :
    0 ≤ x := by
  unfold jsNumberInt at h
  split at h
  · have := Option.some.inj h
    omega
  · split at h
    · have := Option.some.inj h
      omega
    · exact absurd h (by simp)

theorem daysFromCivil_lower (y : Int) (m : Nat) (d : Int) (hy : 99 ≤ y)
    (hm1 : 1 ≤ m) (hm2 : m ≤ 12) (hd : 0 ≤ d) :
    -683703 ≤ daysFromCivil y m d := by
  simp only [daysFromCivil, yearStartInEra, monthStartDoy]
  by_cases hm : m ≤ 2
  · rw [if_pos hm, if_neg (by omega)]
    omega
  · rw [if_neg hm, if_pos (by omega)]
    omega

theorem daysFromCivil_add_1900 (y : Int) (m : Nat) (d : Int) :
    daysFromCivil y m d + 1 ≤ daysFromCivil (y + 1900) m d := by
  simp only [daysFromCivil, yearStartInEra, monthStartDoy]
  by_cases hm : m ≤ 2
  · rw [if_pos hm, if_pos hm]
    omega
  · rw [if_neg hm, if_neg hm]
    omega

theorem dateUTC_ok_lower (y m d : Int) (hy : 0 ≤ y) (hm : 0 ≤ m) (hd : 0 ≤ d) :
    ∃ z : Int, dateUTC y m d = msPerDay * z ∧ -683703 ≤ z := by
  unfold dateUTC
  by_cases hb : 0 ≤ y ∧ y ≤ 99
  · rw [if_pos hb]
    refine ⟨_, rfl, ?_⟩
    apply daysFromCivil_lower <;> omega
  · rw [if_neg hb]
    refine ⟨_, rfl, ?_⟩
    apply daysFromCivil_lower <;> omega

theorem civilDateToEpochMs_ok_bounds (s : String) (v : Int)
    (h : civilDateToEpochMs s = .ok v) :
    ∃ z : Int, v = msPerDay * z ∧ -683703 ≤ z := by
  unfold civilDateToEpochMs at h
  split at h
  · next y m d heq0 heq1 heq2 =>
      have hy : 0 ≤ y := by
        obtain ⟨cs, _, hjs⟩ := Option.bind_eq_some.mp heq0
        exact jsNumberInt_nonneg cs y hjs
      have hm : 0 ≤ m := by
        obtain ⟨cs, _, hjs⟩ := Option.bind_eq_some.mp heq1
        exact jsNumberInt_nonneg cs m hjs
      have hd : 0 ≤ d := by
        obtain ⟨cs, _, hjs⟩ := Option.bind_eq_some.mp heq2
        exact jsNumberInt_nonneg cs d hjs
      obtain ⟨z, hz, hlb⟩ := dateUTC_ok_lower y m d hy hm hd
      exact ⟨z, by rw [← Except.ok.inj h, hz], hlb⟩
  · exact absurd h (by simp)

theorem civilFromDays_year_nonneg (t : Int) (h : -719468 ≤ t) :
    0 ≤ (civilFromDays t).1 := by
  unfold civilFromDays
  simp only [civilOfEraDoe]
  have hera : 0 ≤ (t + 719468) / 146097 := by omega
  by_cases hs : mpOfDoy ((((t + 719468) % 146097).toNat)
      - yearStartInEra (yoeOfDoe (((t + 719468) % 146097).toNat))) < 10
  · rw [if_pos hs]
    split <;> omega
  · rw [if_neg hs]
    split <;> omega

theorem dateUTC_bump (y : Int) (m d : Nat) (hy0 : 0 ≤ y) (hy : y ≤ 99)
    (hm1 : 1 ≤ m) (hm2 : m ≤ 12) :
    dateUTC y (m : Int) (d : Int) = msPerDay * daysFromCivil (y + 1900) m (d : Int) := by
  simp only [dateUTC]
  rw [if_pos ⟨hy0, hy⟩]
  have hq : ((m : Int) - 1) / 12 = 0 := by omega
  rw [hq]
  have e1 : y + 1900 + 0 = y + 1900 := by ring
  have e2 : ((m : Int) - 1 - 12 * 0).toNat + 1 = m := by omega
  rw [e1, e2]

theorem seasonWeekContainment_head (weeks : List Week) (season : Season)
    (tz : String) (id : String) (rest : List String)
    (h : seasonWeekContainment weeks season tz (id :: rest) = .ok ()) :
    ∃ (w : Week) (a1 e1 sa sb : Int),
      civilDateToEpochMs w.startDate = .ok a1 ∧
      (∃ es, addDaysToCivilDate w.startDate 6 = .ok es ∧
        civilDateToEpochMs es = .ok e1) ∧
      civilDateToEpochMs season.startDate = .ok sa ∧
      civilDateToEpochMs season.endDate = .ok sb ∧
      sa ≤ a1 ∧ e1 ≤ sb := by
  rw [seasonWeekContainment] at h
  split at h
  · exact absurd h (by simp)
  · next w hlook =>
      obtain ⟨wd, hwd, h⟩ := except_bind_ok_inv _ _ _ h
      split at h
      · exact absurd h (by simp)
      · obtain ⟨a1, ha1, h⟩ := except_bind_ok_inv _ _ _ h
        obtain ⟨es, hes, h⟩ := except_bind_ok_inv _ _ _ h
        obtain ⟨e1, he1, h⟩ := except_bind_ok_inv _ _ _ h
        obtain ⟨sa, hsa, h⟩ := except_bind_ok_inv _ _ _ h
        obtain ⟨sb, hsb, h⟩ := except_bind_ok_inv _ _ _ h
        split at h
        · next hc =>
            exact ⟨w, a1, e1, sa, sb, ha1, ⟨es, hes, he1⟩, hsa, hsb, hc.1, hc.2⟩
        · exact absurd h (by simp)

/-- The parsed window-end value of a week start is strictly greater than the
parsed start value: either the reparse is exact (year ≥ 100, end = start + 6
days) or the two-digit-year bump pushes the end about 1900 years forward. -/
theorem end_gt_start (s es : String) (a1 e1 : Int)
    (ha1 : civilDateToEpochMs s = .ok a1)
    (hes : addDaysToCivilDate s 6 = .ok es)
    (he1 : civilDateToEpochMs es = .ok e1) :
    a1 < e1 := by
  obtain ⟨z1, hz1, hlb⟩ := civilDateToEpochMs_ok_bounds s a1 ha1
  obtain ⟨z2, hz2, hadd⟩ := addDays_six s a1 ha1
  have hzz : z2 = z1 := by
    rw [hz1] at hz2
    simp only [msPerDay] at hz2
    omega
  rw [hzz] at hadd
  have heseq : es = formatCivilDate (civilFromDays (z1 + 6)).1
      (civilFromDays (z1 + 6)).2.1 (civilFromDays (z1 + 6)).2.2 :=
    Except.ok.inj (hes.symm.trans hadd)
  by_cases hyr : 100 ≤ (civilFromDays (z1 + 6)).1
  · have hrep := reparse_civilFromDays (z1 + 6) hyr
    rw [← heseq] at hrep
    have he1v : e1 = msPerDay * (z1 + 6) := Except.ok.inj (he1.symm.trans hrep)
    rw [hz1, he1v]
    simp only [msPerDay]
    omega
  · have hy0 : 0 ≤ (civilFromDays (z1 + 6)).1 :=
      civilFromDays_year_nonneg (z1 + 6) (by omega)
    have hb := civilFromDays_bounds (z1 + 6)
    have hfmt := civilDateToEpochMs_format_nonneg (civilFromDays (z1 + 6)).1
      (civilFromDays (z1 + 6)).2.1 (civilFromDays (z1 + 6)).2.2 hy0
    rw [← heseq] at hfmt
    have he1v : e1 = dateUTC (civilFromDays (z1 + 6)).1
        ((civilFromDays (z1 + 6)).2.1 : Int) ((civilFromDays (z1 + 6)).2.2 : Int) :=
      Except.ok.inj (he1.symm.trans hfmt)
    rw [dateUTC_bump (civilFromDays (z1 + 6)).1 (civilFromDays (z1 + 6)).2.1
      (civilFromDays (z1 + 6)).2.2 hy0 (by omega) hb.1 hb.2.1] at he1v
    have hrt := civilFromDays_roundtrip (z1 + 6)
    have hmono := daysFromCivil_add_1900 (civilFromDays (z1 + 6)).1
      (civilFromDays (z1 + 6)).2.1 ((civilFromDays (z1 + 6)).2.2 : Int)
    rw [hrt] at hmono
    rw [hz1, he1v]
    simp only [msPerDay] at *
    omega

/-- C8: every dataset accepted by `assertCalendarData` satisfies the Season
date-range invariant: each season's `startDate` parses to an epoch strictly
earlier than its `endDate`'s (the validator requires at least one week whose
7-day span the season's range must contain, which forces the strict
inequality); any dataset with a season violating the invariant is rejected. -/
theorem C8_accepted_seasons_start_lt_end (data : CalendarData) (tz : String)
    (h : assertCalendarData data tz = .ok ()) :
    ∀ season ∈ data.seasons, ∃ sa sb : Int,
      civilDateToEpochMs season.startDate = .ok sa ∧
      civilDateToEpochMs season.endDate = .ok sb ∧ sa < sb := by
  unfold assertCalendarData at h
  obtain ⟨v1, hseasons, _⟩ := except_bind_ok_inv _ _ _ h
  cases v1
  intro season hmem
  have hchk : seasonCheck data.weeks tz season = .ok () :=
    forEachCheck_ok _ data.seasons hseasons season hmem
  unfold seasonCheck at hchk
  obtain ⟨htz, hchk⟩ := ite_error_ok _ _ _ _ hchk
  obtain ⟨hlen, hchk⟩ := ite_error_ok _ _ _ _ hchk
  obtain ⟨dates, hdates, hchk⟩ := except_bind_ok_inv _ _ _ hchk
  obtain ⟨u2, hchrono, hcont⟩ := except_bind_ok_inv _ _ _ hchk
  obtain ⟨id, rest, hids⟩ : ∃ id rest, season.weekIds = id :: rest := by
    cases hw : season.weekIds with
    | nil => rw [hw] at hlen; simp at hlen
    | cons a b => exact ⟨a, b, rfl⟩
  rw [hids] at hcont
  obtain ⟨w, a1, e1, sa, sb, ha1, ⟨es, hes, he1⟩, hsa, hsb, hsale, hesb⟩ :=
    seasonWeekContainment_head data.weeks season tz id rest hcont
  have hlt := end_gt_start w.startDate es a1 e1 ha1 hes he1
  exact ⟨sa, sb, hsa, hsb, by omega⟩

/-- C8 witness: the validator accepts `dataMissingBlock`, whose only season
runs 2026-01-26 (epoch day 20479) to 2026-02-08 (epoch day 20492), and the
theorem yields the strict start-before-end inequality for it. -/
theorem C8_accepted_seasons_witness :
    ∃ sa sb : Int,
      civilDateToEpochMs season1.startDate = .ok sa ∧
      civilDateToEpochMs season1.endDate = .ok sb ∧ sa < sb :=
  C8_accepted_seasons_start_lt_end dataMissingBlock DEFAULT_TIME_ZONE (by decide)
    season1 (by decide)
